import Mathlib

/-!
# PitchVowelSegmenter: the streaming segmentation loop

A shallow embedding of `src/PitchVowelSegmenter/main.cpp`.

Conventions of the embedding.

* `int` and `long` values are `Int`.  The program targets Windows (`MAX_PATH`, `praatcon.exe`),
  where `long` and `int` are both 32 bits wide, so `int tStart = features[..].Time` keeps the
  value.  No arithmetic of the modelled code can overflow on values that fit the fields: the
  only integer arithmetic is the counter (bounded by `nBufferPoints`) and the line index.
* `double` values are exact rationals (`ℚ`).  The conversion of an `int` to `double` is exact,
  but the rounding of binary64 division and multiplication is not modelled: where the exact
  result lies on a tested boundary the C program may decide the other way (it computes the
  percent difference of 100 and 112 as 12.000000000000011, the exact value is 12; line 253
  and line 513 round before they truncate).  The sample inputs below avoid such boundaries.
* The two ring arrays `szLineBuffer` and `features` are functions from the slot index; their
  contents before the first write are arbitrary and are therefore parameters of the initial
  state.
* One element of the input stream (`Frame`) is what one iteration of the reading loop finds in
  its ring slot after `fgets` and `parseLine` (lines 276-280): the text of the row and the
  record left in the slot (`parseLine` returns after F3, so the cepstral fields are never
  written, and nothing reads them).  A row that does not parse ends the program, hence the
  stream.  How `fgets` fills the slot, including the iteration that the `feof` test of line 275
  still lets through at the end of the file, is outside the model: the stream lists what the
  iterations find.
* The effects of the loop are kept as traces in the state: the calls of the evaluator
  (`evaluated`) and the accepted segments with the feature file written for each (`extracted`).
  The diagnostic output, the external commands and failing file operations are outside the
  model.
* A C string is the list of its characters before the terminating NUL.  The library
  conversions `atof` and `atoi` are parameters of `parseLine`; the conversion `(long)` of a
  `double` is truncation toward zero.
* The loop is modelled for `nBufferPoints >= 1`; with `nBufferPoints = 0` the C program
  divides by zero at `line % nBufferPoints`.
-/

namespace PitchVowelSegmenter

/-! ## Constants (lines 26-45, 261) -/

def THRESHOLD_PITCH : ℚ := 12
def THRESHOLD_F1 : ℚ := 15
def THRESHOLD_F2 : ℚ := 20
def DEFAULT_TIME_STEP : ℚ := 2 / 100
def DEFAULT_WINDOW : ℚ := 25 / 100
def DEFAULT_MAX_FORMANT : Int := 5500
def MATRIX_HEADER : String :=
  "Time,Intensity,Pitch,F1,F2,F3,MFCC1,MFCC2,MFCC3,MFCC4,MFCC5,MFCC6,MFCC7,MFCC8,MFCC9,MFCC10,MFCC11,MFCC12\n"
def MINIMUM_INTENSITY : Int := 55
def EXTRACT_MS : ℚ := 500
def MAX_BUFFER_SIZE : Int := 100

/-! ## Data (lines 49-81) -/

/-- One analysis frame, `struct FeatureVector`. -/
structure FeatureVector where
  Time : Int
  Intensity : Int
  Pitch : Int
  F1 : Int
  F2 : Int
  F3 : Int
  MFCC1 : Int
  MFCC2 : Int
  MFCC3 : Int
  MFCC4 : Int
  MFCC5 : Int
  MFCC6 : Int
  MFCC7 : Int
  MFCC8 : Int
  MFCC9 : Int
  MFCC10 : Int
  MFCC11 : Int
  MFCC12 : Int
  deriving Inhabited

/-- The run parameters, `struct Options` (the two path buffers are left out). -/
structure Options where
  Verbosity : Int
  IsTestMode : Bool
  TimeStep : ℚ
  Window : ℚ
  MaxFormant : Int
  PitchThreshold : ℚ
  F1Threshold : ℚ
  F2Threshold : ℚ

/-- The options `parseCommandLine` sets when no optional argument is given (lines 140-147). -/
def defaultOptions : Options :=
  { Verbosity := 0
    IsTestMode := false
    TimeStep := DEFAULT_TIME_STEP
    Window := DEFAULT_WINDOW
    MaxFormant := DEFAULT_MAX_FORMANT
    PitchThreshold := THRESHOLD_PITCH
    F1Threshold := THRESHOLD_F1
    F2Threshold := THRESHOLD_F2 }

/-! ## The homogeneity evaluator (lines 387-462) -/

/-- `calculatePercentDifference` (lines 387-396). -/
def calculatePercentDifference (a b : ℚ) : ℚ :=
  if a = b then 0
  else if a = 0 ∨ b = 0 then 1000
  else
    let quotient := if a > b then a / b else b / a
    100 * (quotient - 1)

/-- The running extremes of `isSegmentSuitableForExtract` (lines 400-407). -/
structure Extremes where
  minPitch : Int
  maxPitch : Int
  minF1 : Int
  maxF1 : Int
  minF2 : Int
  maxF2 : Int
  minTime : Int

/-- The initial values of the extremes (lines 400-407): `0xFFFF` for a minimum, `0` for a
maximum. -/
def Extremes.init : Extremes :=
  { minPitch := 0xFFFF, maxPitch := 0
    minF1 := 0xFFFF, maxF1 := 0
    minF2 := 0xFFFF, maxF2 := 0
    minTime := 0xFFFF }

/-- One pass of the body of the scanning loop (lines 416-429). -/
def scanPoint (e : Extremes) (fv : FeatureVector) : Extremes :=
  { minPitch := if fv.Pitch < e.minPitch then fv.Pitch else e.minPitch
    maxPitch := if fv.Pitch > e.maxPitch then fv.Pitch else e.maxPitch
    minF1 := if fv.F1 < e.minF1 then fv.F1 else e.minF1
    maxF1 := if fv.F1 > e.maxF1 then fv.F1 else e.maxF1
    minF2 := if fv.F2 < e.minF2 then fv.F2 else e.minF2
    maxF2 := if fv.F2 > e.maxF2 then fv.F2 else e.maxF2
    minTime := if fv.Time < e.minTime then fv.Time else e.minTime }

/-- The extremes after the first `i` passes of `for (int i = 0; i < nBufferPoints; i++)`
(line 415). -/
def scanBuffer (features : Nat → FeatureVector) : Nat → Extremes
  | 0 => Extremes.init
  | i + 1 => scanPoint (scanBuffer features i) (features i)

/-- `isSegmentSuitableForExtract` (lines 398-462), without the diagnostic output. -/
def isSegmentSuitableForExtract (options : Options) (features : Nat → FeatureVector)
    (nBufferPoints : Nat) : Bool :=
  let e := scanBuffer features nBufferPoints
  let pitchDifference := calculatePercentDifference e.minPitch e.maxPitch
  let f1Difference := calculatePercentDifference e.minF1 e.maxF1
  let f2Difference := calculatePercentDifference e.minF2 e.maxF2
  let ret := true
  let ret := if pitchDifference > options.PitchThreshold then false else ret
  let ret := if f1Difference > options.F1Threshold then false else ret
  let ret := if f2Difference > options.F2Threshold then false else ret
  ret

/-- `isVoiced` (lines 464-472). -/
def isVoiced (fv : FeatureVector) : Bool :=
  if fv.Intensity < MINIMUM_INTENSITY then false
  else if fv.Pitch = 0 then false
  else if fv.F3 = 0 then false
  else true

/-! ## The reading loop of `main` (lines 267-337) -/

/-- What one iteration reads (lines 276-280): the row text that `fgets` leaves in the slot and
the record that `parseLine` leaves there. -/
structure Frame where
  szLine : String
  fv : FeatureVector
  deriving Inhabited

/-- An accepted segment (lines 300-313): the index of the accepting iteration, the boundary
handed to `extractSegment`, and the content of the feature file that `extractSegment` renames
into place (`none` in test mode, where nothing is written). -/
structure Segment where
  line : Nat
  tStart : Int
  tEnd : Int
  file : Option (List String)

/-- The variables of the loop (lines 268-274) together with the content of the working file
behind `fpOutData` and the two traces. -/
structure LoopState where
  szLineBuffer : Nat → String
  features : Nat → FeatureVector
  countPointsInCurrentSegment : Int
  countExtractedSegments : Int
  totalExtractedSegmentTime : ℚ
  fpOutData : List String
  extracted : List Segment
  evaluated : List (Nat × Bool)

/-- The state on entry to the loop (lines 243-251 and 268-274); the two arrays hold whatever the
stack held. -/
def LoopState.init (szLineBuffer : Nat → String) (features : Nat → FeatureVector) : LoopState :=
  { szLineBuffer := szLineBuffer
    features := features
    countPointsInCurrentSegment := 0
    countExtractedSegments := 0
    totalExtractedSegmentTime := 0
    fpOutData := [MATRIX_HEADER]
    extracted := []
    evaluated := [] }

/-- Lines 276-287 of iteration `line`: store the row and its record in slot
`line % nBufferPoints`, count the point, and drop the count to zero on an unvoiced point. -/
def ingest (nBufferPoints line : Nat) (st : LoopState) (fr : Frame) : LoopState :=
  let szLineBuffer := Function.update st.szLineBuffer (line % nBufferPoints) fr.szLine
  let features := Function.update st.features (line % nBufferPoints) fr.fv
  let count := st.countPointsInCurrentSegment + 1
  let isUnvoiced := !isVoiced (features (line % nBufferPoints))
  let count := if isUnvoiced then 0 else count
  { st with
    szLineBuffer := szLineBuffer
    features := features
    countPointsInCurrentSegment := count }

/-- Lines 300-331: the accepting branch.  Outside test mode the `nBufferPoints` buffered rows
are appended to the working file from slot `nStartPoint` on, and `extractSegment` (lines
351-385) renames that file into place and starts a new working file with the header. -/
def acceptSegment (options : Options) (nBufferPoints line : Nat) (st : LoopState) : LoopState :=
  let nStartPoint := (line + 1) % nBufferPoints
  let nEndPoint := line % nBufferPoints
  let tStart := (st.features nStartPoint).Time
  let tEnd := (st.features nEndPoint).Time
  let dumped := st.fpOutData ++
    (List.range nBufferPoints).map fun k => st.szLineBuffer ((nStartPoint + k) % nBufferPoints)
  let tStartSeconds : ℚ := tStart / 1000
  let tEndSeconds : ℚ := tEnd / 1000
  { st with
    fpOutData := if !options.IsTestMode then [MATRIX_HEADER] else st.fpOutData
    extracted := st.extracted ++
      [{ line := line, tStart := tStart, tEnd := tEnd
         file := if !options.IsTestMode then some dumped else none }]
    countPointsInCurrentSegment := 0
    totalExtractedSegmentTime := st.totalExtractedSegmentTime + (tEndSeconds - tStartSeconds)
    countExtractedSegments := st.countExtractedSegments + 1 }

/-- The call of the evaluator at line 299, noted in the trace with its verdict. -/
def recordVerdict (line : Nat) (verdict : Bool) (st : LoopState) : LoopState :=
  { st with evaluated := st.evaluated ++ [(line, verdict)] }

/-- Lines 332-335: the rejecting branch, `countPointsInCurrentSegment--`. -/
def rejectSegment (st : LoopState) : LoopState :=
  { st with countPointsInCurrentSegment := st.countPointsInCurrentSegment - 1 }

/-- One iteration of the loop (lines 276-336) at index `line`. -/
def loopBody (options : Options) (nBufferPoints line : Nat) (st : LoopState) (fr : Frame) :
    LoopState :=
  let st := ingest nBufferPoints line st fr
  if st.countPointsInCurrentSegment = nBufferPoints then
    let verdict := isSegmentSuitableForExtract options st.features nBufferPoints
    let st := recordVerdict line verdict st
    if verdict then
      acceptSegment options nBufferPoints line st
    else
      rejectSegment st
  else
    st

/-- The state after the first `k` iterations of the loop (line 275) over the stream. -/
def mainLoop (options : Options) (nBufferPoints : Nat) (init : LoopState)
    (stream : Nat → Frame) : Nat → LoopState
  | 0 => init
  | k + 1 => loopBody options nBufferPoints k (mainLoop options nBufferPoints init stream k)
      (stream k)

/-! ## Start-up (lines 111-117, 253-265) -/

/-- The conversion `(int) x` of a `double` (line 253): truncation toward zero. -/
def truncToInt (x : ℚ) : Int :=
  if 0 ≤ x then ⌊x⌋ else ⌈x⌉

/-- Line 253: `(int)(0.5 + (EXTRACT_MS / 1000.0) / options.TimeStep)`. -/
def nBufferPointsOf (options : Options) : Int :=
  truncToInt (1 / 2 + (EXTRACT_MS / 1000) / options.TimeStep)

/-- `ensurePositive` (lines 111-117) lets the value through: it is not `<= 0`. -/
def ensurePositive (value : ℚ) : Prop :=
  ¬ value ≤ 0

instance ensurePositive.decidable (value : ℚ) : Decidable (ensurePositive value) :=
  inferInstanceAs (Decidable (¬ value ≤ 0))

/-- The options with which the program reaches the reading loop: each numeric option passed
`ensurePositive` (lines 155-185; the defaults of lines 142-147 are positive), and the capacity
test of lines 262-265 did not end the program. -/
def passesStartup (options : Options) : Prop :=
  ensurePositive options.TimeStep ∧ ensurePositive options.Window ∧
  ensurePositive options.MaxFormant ∧ ensurePositive options.PitchThreshold ∧
  ensurePositive options.F1Threshold ∧ ensurePositive options.F2Threshold ∧
  ¬ nBufferPointsOf options > MAX_BUFFER_SIZE

instance passesStartup.decidable (options : Options) : Decidable (passesStartup options) := by
  unfold passesStartup
  infer_instance

/-! ## Notions of the specification -/

/-- The value `m` is the true minimum of `g 0, ..., g (n - 1)`: it is attained and it is a
lower bound. -/
def IsMinOver (g : Nat → Int) (n : Nat) (m : Int) : Prop :=
  (∃ i, i < n ∧ g i = m) ∧ ∀ i, i < n → m ≤ g i

/-- The value `m` is the true maximum of `g 0, ..., g (n - 1)`. -/
def IsMaxOver (g : Nat → Int) (n : Nat) (m : Int) : Prop :=
  (∃ i, i < n ∧ g i = m) ∧ ∀ i, i < n → g i ≤ m

/-- Among `g 0, ..., g (n - 1)` there is a zero and a non-zero value, and the values are not of
both signs: none is negative, or none is positive. -/
def ZeroAmongOneSign (g : Nat → Int) (n : Nat) : Prop :=
  (∃ i, i < n ∧ g i = 0) ∧ (∃ i, i < n ∧ g i ≠ 0) ∧
  ((∀ i, i < n → 0 ≤ g i) ∨ (∀ i, i < n → g i ≤ 0))

/-- The running minimum of one field in the scanning loop, started at `0xFFFF`. -/
def runMin (g : Nat → Int) : Nat → Int
  | 0 => 0xFFFF
  | i + 1 => if g i < runMin g i then g i else runMin g i

/-- The running maximum of one field in the scanning loop, started at `0`. -/
def runMax (g : Nat → Int) : Nat → Int
  | 0 => 0
  | i + 1 => if g i > runMax g i then g i else runMax g i

/-- The segment the specification expects for the window that ends at stream index `i`: the
boundary runs from the time of frame `i + 1 - n` to the time of frame `i`, and the feature file
holds the header and the rows of those frames in stream order (no file in test mode). -/
def expectedSegment (options : Options) (n : Nat) (stream : Nat → Frame) (i : Nat) : Segment :=
  { line := i
    tStart := (stream (i + 1 - n)).fv.Time
    tEnd := (stream i).fv.Time
    file := if options.IsTestMode then none
      else some (MATRIX_HEADER :: (List.range n).map fun k => (stream (i + 1 - n + k)).szLine) }

/-- The state in which iteration `i` reaches the test of line 298. -/
def stateAtCheck (options : Options) (n : Nat) (init : LoopState) (stream : Nat → Frame)
    (i : Nat) : LoopState :=
  ingest n i (mainLoop options n init stream i) (stream i)

/-- Iteration `i` calls the evaluator (the test of line 298 succeeds). -/
def evaluatesAt (options : Options) (n : Nat) (init : LoopState) (stream : Nat → Frame)
    (i : Nat) : Prop :=
  (stateAtCheck options n init stream i).countPointsInCurrentSegment = n

instance evaluatesAt.decidable (options : Options) (n : Nat) (init : LoopState)
    (stream : Nat → Frame) (i : Nat) : Decidable (evaluatesAt options n init stream i) := by
  unfold evaluatesAt
  infer_instance

/-- The verdict of the evaluator on the ring of iteration `i` (line 299). -/
def verdictAt (options : Options) (n : Nat) (init : LoopState) (stream : Nat → Frame)
    (i : Nat) : Bool :=
  isSegmentSuitableForExtract options (stateAtCheck options n init stream i).features n

/-- Iteration `i` accepts its window (lines 298-299 both succeed). -/
def acceptsAt (options : Options) (n : Nat) (init : LoopState) (stream : Nat → Frame)
    (i : Nat) : Prop :=
  evaluatesAt options n init stream i ∧ verdictAt options n init stream i = true

instance acceptsAt.decidable (options : Options) (n : Nat) (init : LoopState)
    (stream : Nat → Frame) (i : Nat) : Decidable (acceptsAt options n init stream i) := by
  unfold acceptsAt
  infer_instance

/-- Iteration `i` evaluates its window and rejects it (the branch of lines 332-335). -/
def rejectsAt (options : Options) (n : Nat) (init : LoopState) (stream : Nat → Frame)
    (i : Nat) : Prop :=
  evaluatesAt options n init stream i ∧ verdictAt options n init stream i = false

instance rejectsAt.decidable (options : Options) (n : Nat) (init : LoopState)
    (stream : Nat → Frame) (i : Nat) : Decidable (rejectsAt options n init stream i) := by
  unfold rejectsAt
  infer_instance

/-! ## The invariant of the reading loop -/

/-- The invariant of the reading loop after `k` iterations. -/
structure LoopInv (options : Options) (n : Nat) (stream : Nat → Frame) (k : Nat)
    (st : LoopState) : Prop where
  count_nonneg : 0 ≤ st.countPointsInCurrentSegment
  count_lt : st.countPointsInCurrentSegment < n
  count_le : st.countPointsInCurrentSegment ≤ k
  voiced : ∀ j, j < k → (k : Int) ≤ j + st.countPointsInCurrentSegment →
    isVoiced (stream j).fv = true
  ring_fv : ∀ j, j < k → k ≤ j + n → st.features (j % n) = (stream j).fv
  ring_line : ∀ j, j < k → k ≤ j + n → st.szLineBuffer (j % n) = (stream j).szLine
  out : st.fpOutData = [MATRIX_HEADER]
  seg_gap : ∀ seg ∈ st.extracted, (seg.line : Int) + 1 + st.countPointsInCurrentSegment ≤ k
  seg_wf : ∀ seg ∈ st.extracted, seg = expectedSegment options n stream seg.line ∧
    n ≤ seg.line + 1
  seg_sep : st.extracted.Pairwise fun a b => a.line + n ≤ b.line
  eval_wf : ∀ e ∈ st.evaluated, e.1 < k ∧ n ≤ e.1 + 1 ∧
    ∀ j, e.1 + 1 ≤ j + n → j ≤ e.1 → isVoiced (stream j).fv = true
  seg_eval : ∀ seg ∈ st.extracted, (seg.line, true) ∈ st.evaluated

/-- What the invariant gives for the state at the test of line 298 of iteration `k`. -/
structure CheckInv (n : Nat) (stream : Nat → Frame) (k : Nat) (st st1 : LoopState) : Prop where
  count_eq : st1.countPointsInCurrentSegment =
    if isVoiced (stream k).fv = true then st.countPointsInCurrentSegment + 1 else 0
  count_nonneg : 0 ≤ st1.countPointsInCurrentSegment
  count_le_n : st1.countPointsInCurrentSegment ≤ n
  count_le : st1.countPointsInCurrentSegment ≤ k + 1
  voiced : ∀ j, j < k + 1 → (k : Int) + 1 ≤ j + st1.countPointsInCurrentSegment →
    isVoiced (stream j).fv = true
  ring_fv : ∀ j, j < k + 1 → k + 1 ≤ j + n → st1.features (j % n) = (stream j).fv
  ring_line : ∀ j, j < k + 1 → k + 1 ≤ j + n → st1.szLineBuffer (j % n) = (stream j).szLine

/-! ## Sample records and streams -/

/-- A record with the six fields that `parseLine` sets; the cepstral fields are `0`. -/
def mkRecord (t i p f1 f2 f3 : Int) : FeatureVector :=
  { Time := t, Intensity := i, Pitch := p, F1 := f1, F2 := f2, F3 := f3
    MFCC1 := 0, MFCC2 := 0, MFCC3 := 0, MFCC4 := 0, MFCC5 := 0, MFCC6 := 0
    MFCC7 := 0, MFCC8 := 0, MFCC9 := 0, MFCC10 := 0, MFCC11 := 0, MFCC12 := 0 }

/-- An initial state with empty rows and zero records in the two arrays. -/
def sampleInit : LoopState :=
  LoopState.init (fun _ => "") (fun _ => mkRecord 0 0 0 0 0 0)

/-- Voiced frames 20 ms apart with pitch 120 Hz, F1 500 Hz and F2 1500 Hz (scenarios A, C). -/
def steadyStream (i : Nat) : Frame :=
  { szLine := "row " ++ toString i, fv := mkRecord (20 * i) 60 120 500 1500 2500 }

/-- The steady stream with frame 3 below the intensity threshold (scenario B). -/
def gapStream (i : Nat) : Frame :=
  { szLine := "row " ++ toString i
    fv := mkRecord (20 * i) (if i = 3 then 40 else 60) 120 500 1500 2500 }

/-- Voiced frames with pitch 100 Hz, except frame 4 with pitch 200 Hz (scenario D). -/
def jumpStream (i : Nat) : Frame :=
  { szLine := "row " ++ toString i
    fv := mkRecord (20 * i) 60 (if i = 4 then 200 else 100) 500 1500 2500 }

/-- Steady voiced frames whose times are 0, 250, 250, 500, 500, ... ms: non-decreasing, with
repeats. -/
def repeatStream (i : Nat) : Frame :=
  { szLine := "row " ++ toString i
    fv := mkRecord (250 * ((i + 1) / 2 : Nat)) 60 120 500 1500 2500 }

/-- The default options with a time step of 0.25 s: two frames per segment. -/
def quarterOptions : Options :=
  { defaultOptions with TimeStep := 1 / 4 }

/-- The default options with a time step of 0.1 s: five frames per segment. -/
def tenthOptions : Options :=
  { defaultOptions with TimeStep := 1 / 10 }

/-- The default options with a time step of 0.5 s: one frame per segment. -/
def halfOptions : Options :=
  { defaultOptions with TimeStep := 1 / 2 }

/-- Voiced frames 500 ms apart whose F1 is 100000 Hz. -/
def wideStream (i : Nat) : Frame :=
  { szLine := "row " ++ toString i, fv := mkRecord (500 * i) 60 120 100000 1500 2500 }

/-- The default options with an F1 tolerance of 1000 percent. -/
def looseOptions : Options :=
  { defaultOptions with F1Threshold := 1000 }

/-- A window in which F1 is 0 in every record. -/
def zeroF1Window (_ : Nat) : FeatureVector :=
  mkRecord 0 60 120 0 1500 2500

/-- A window of two records with F1 0 and 500. -/
def halfZeroF1Window (i : Nat) : FeatureVector :=
  mkRecord (20 * i) 60 120 (if i = 0 then 0 else 500) 1500 2500

/-- A window of two records with F1 0 and -500. -/
def negativeZeroF1Window (i : Nat) : FeatureVector :=
  mkRecord (20 * i) 60 120 (if i = 0 then 0 else -500) 1500 2500

/-- A window of three records with F1 0, -500 and 500. -/
def signedF1Window (i : Nat) : FeatureVector :=
  mkRecord (20 * i) 60 120 (if i = 0 then 0 else if i = 1 then -500 else 500) 1500 2500

/-- The ring position `line % nBufferPoints` of lines 276-277 with the partiality of the C
operator: there is no value when the divisor is 0. -/
def ringPosition (line nBufferPoints : Int) : Option Int :=
  if nBufferPoints = 0 then none else some (Int.tmod line nBufferPoints)

/-! ## The row parser (lines 474-529)

A C string is the list of its characters before the terminating NUL; a pointer into a string
is the list of the characters from the pointer on. -/

def FIELD_UNDEFINED : List Char :=
  ['-', '-', 'u', 'n', 'd', 'e', 'f', 'i', 'n', 'e', 'd', '-', '-']

def MAX_FIELD : Nat := 15

def DELIM : Char := ','

/-- The characters that the copying loop of lines 483-489 leaves in `pDest` when it runs for at
most `size` passes: it copies up to a delimiter, a newline or the end of the source. -/
def copyField (cDelim : Char) : Nat → List Char → List Char
  | 0, _ => []
  | _ + 1, [] => []
  | size + 1, c :: source =>
    if c = cDelim ∨ c = '\n' then [] else c :: copyField cDelim size source

/-- `getField` (lines 474-505).  The result is `none` when the C function returns `false`, and
otherwise the string left in `pDest` together with the advanced source pointer.  The buffer
`pDest` holds `size` characters, so line 498 cuts the string to `size - 1` characters.  The
delimiter is not NUL. -/
def getField (size : Nat) (source : List Char) (cDelim : Char) :
    Option (List Char × List Char) :=
  if source = [] then none
  else
    let copied := copyField cDelim size source
    let count := copied.length
    let source := source.drop count
    let pDest := copied.take (size - 1)
    let pDest := if pDest = FIELD_UNDEFINED then ['0'] else pDest
    match source with
    | [] => some (pDest, source)
    | c :: rest =>
      if c = cDelim then some (pDest, rest)
      else if size = count then none
      else some (pDest, source)

/-- Lines 526-529 of `parseLine`: the field F3 and `return true`. -/
def parseF3 (atoi : List Char → Int) (fv : FeatureVector) (pcLine : List Char) :
    Bool × FeatureVector :=
  match getField (MAX_FIELD + 1) pcLine DELIM with
  | none => (false, fv)
  | some (szField, _) => (true, { fv with F3 := atoi szField })

/-- Lines 523-529 of `parseLine`: from the field F2 on. -/
def parseF2 (atoi : List Char → Int) (fv : FeatureVector) (pcLine : List Char) :
    Bool × FeatureVector :=
  match getField (MAX_FIELD + 1) pcLine DELIM with
  | none => (false, fv)
  | some (szField, pcLine) => parseF3 atoi { fv with F2 := atoi szField } pcLine

/-- Lines 520-529 of `parseLine`: from the field F1 on. -/
def parseF1 (atoi : List Char → Int) (fv : FeatureVector) (pcLine : List Char) :
    Bool × FeatureVector :=
  match getField (MAX_FIELD + 1) pcLine DELIM with
  | none => (false, fv)
  | some (szField, pcLine) => parseF2 atoi { fv with F1 := atoi szField } pcLine

/-- Lines 517-529 of `parseLine`: from the field Pitch on. -/
def parsePitch (atoi : List Char → Int) (fv : FeatureVector) (pcLine : List Char) :
    Bool × FeatureVector :=
  match getField (MAX_FIELD + 1) pcLine DELIM with
  | none => (false, fv)
  | some (szField, pcLine) => parseF1 atoi { fv with Pitch := atoi szField } pcLine

/-- Lines 514-529 of `parseLine`: from the field Intensity on. -/
def parseIntensity (atoi : List Char → Int) (fv : FeatureVector) (pcLine : List Char) :
    Bool × FeatureVector :=
  match getField (MAX_FIELD + 1) pcLine DELIM with
  | none => (false, fv)
  | some (szField, pcLine) => parsePitch atoi { fv with Intensity := atoi szField } pcLine

/-- `parseLine` (lines 507-529, up to the `return true` of line 529; the code after it is never
run).  The library conversions `atof` and `atoi` are parameters.  The result is the returned
flag and the record as the call leaves it. -/
def parseLine (atof : List Char → ℚ) (atoi : List Char → Int) (fv : FeatureVector)
    (szLine : List Char) : Bool × FeatureVector :=
  match getField (MAX_FIELD + 1) szLine DELIM with
  | none => (false, fv)
  | some (szField, pcLine) =>
    parseIntensity atoi { fv with Time := truncToInt (1000 * atof szField) } pcLine

/-! ## Notions of the specification: the counter and the emissions -/

/-- Follows the specification (section 4.4, steps 2 to 6): `activeCount` after the first `k`
frames.  An unvoiced frame sets it to 0, a voiced frame increments it by 1 capped at
`framesPerSegment`; when it equals `framesPerSegment` the evaluator runs over the window of
frames `k + 1 - n .. k` taken in stream order, and `activeCount` becomes 0 on acceptance and
one less on rejection. -/
def specActiveCount (options : Options) (n : Nat) (stream : Nat → Frame) : Nat → Int
  | 0 => 0
  | k + 1 =>
    let activeCount :=
      if isVoiced (stream k).fv then min (specActiveCount options n stream k + 1) n else 0
    if activeCount = n then
      if isSegmentSuitableForExtract options (fun t => (stream (k + 1 - n + t)).fv) n then 0
      else activeCount - 1
    else activeCount

/-- Iteration `i` emits a segment: after it the output holds a segment recorded at index `i`. -/
def emitsAt (options : Options) (n : Nat) (init : LoopState) (stream : Nat → Frame)
    (i : Nat) : Prop :=
  ∃ seg, seg ∈ (mainLoop options n init stream (i + 1)).extracted ∧ seg.line = i

/-! ## Notions of the specification: the fields of a row -/

/-- A field text holds no delimiter and no newline. -/
def IsFieldText (f : List Char) : Prop :=
  ∀ c, c ∈ f → c ≠ DELIM ∧ c ≠ '\n'

/-- The leading fields of a row, each followed by the delimiter. -/
def fieldsThenDelim : List (List Char) → List Char
  | [] => []
  | f :: fs => f ++ DELIM :: fieldsThenDelim fs

/-- What may follow a field in a row: the end of the row, a delimiter or a newline. -/
def EndsField (tail : List Char) : Prop :=
  tail = [] ∨ ∃ rest, tail = DELIM :: rest ∨ tail = '\n' :: rest

/-- The record field filled from field `k + 1` of a row. -/
def recordField : Nat → FeatureVector → Int
  | 0, fv => fv.Time
  | 1, fv => fv.Intensity
  | 2, fv => fv.Pitch
  | 3, fv => fv.F1
  | 4, fv => fv.F2
  | _, fv => fv.F3

/-- The string that `getField` hands to the numeric conversion for a field text that fits the
copying loop: the text cut to `MAX_FIELD` characters, and `0` for the undefined marker. -/
def fieldString (f : List Char) : List Char :=
  if f.take MAX_FIELD = FIELD_UNDEFINED then ['0'] else f.take MAX_FIELD

/-! ## Sample options, conversions and rows -/

/-- The default options with a time step of 2 s (`-t 2`). -/
def twoOptions : Options :=
  { defaultOptions with TimeStep := 2 }

/-- The value of the leading decimal digits of a text, continued from `acc`. -/
def digitsValue : Nat → List Char → Nat
  | acc, [] => acc
  | acc, c :: cs => if c.isDigit then digitsValue (acc * 10 + (c.toNat - 48)) cs else acc

/-- A stand-in for the library function `atoi` on unsigned decimal text. -/
def decimalAtoi (s : List Char) : Int :=
  digitsValue 0 s

/-- A stand-in for the library function `atof` on unsigned text of the form `digits` or
`digits.digits`. -/
def decimalAtof (s : List Char) : ℚ :=
  match s.dropWhile Char.isDigit with
  | '.' :: fraction =>
    (digitsValue 0 (s.takeWhile Char.isDigit ++ fraction.takeWhile Char.isDigit) : ℚ) /
      10 ^ (fraction.takeWhile Char.isDigit).length
  | _ => digitsValue 0 s

/-- A row with two fields only, ended by a newline. -/
def shortRow : List Char :=
  "0.02,60\n".toList

/-- A row of six fields whose first field has 16 characters. -/
def sixteenRow : List Char :=
  "0.04000000000001,60,120,500,1500,2500\n".toList

/-- A row of six fields whose first field has 17 characters and whose second field is the
undefined marker. -/
def seventeenRow : List Char :=
  fieldsThenDelim ["0.020000000000001".toList] ++
    (FIELD_UNDEFINED ++ ",120,500,1500,2500\n".toList)

/-- A row of six fields whose second field is the undefined marker. -/
def undefinedRow : List Char :=
  fieldsThenDelim ["0.02".toList] ++ (FIELD_UNDEFINED ++ ",120,500,1500,2500\n".toList)

/-! ## Notions of the specification: voiced runs -/

/-- The length of the run of consecutive voiced frames that ends with frame `k - 1`, that is
after the first `k` frames of the stream. -/
def voicedRunLength (stream : Nat → Frame) : Nat → Nat
  | 0 => 0
  | k + 1 => if isVoiced (stream k).fv then voicedRunLength stream k + 1 else 0

/-- A record that passes the voicing test, with the three conditions spelled out. -/
def IsVoicedRecord (fv : FeatureVector) : Prop :=
  isVoiced fv = true ∧ 55 ≤ fv.Intensity ∧ fv.Pitch ≠ 0 ∧ fv.F3 ≠ 0

/-! ## The evaluator: auxiliary facts -/

theorem scanBuffer_eq (f : Nat → FeatureVector) (n : Nat) :
    (scanBuffer f n).minPitch = runMin (fun i => (f i).Pitch) n ∧
    (scanBuffer f n).maxPitch = runMax (fun i => (f i).Pitch) n ∧
    (scanBuffer f n).minF1 = runMin (fun i => (f i).F1) n ∧
    (scanBuffer f n).maxF1 = runMax (fun i => (f i).F1) n ∧
    (scanBuffer f n).minF2 = runMin (fun i => (f i).F2) n ∧
    (scanBuffer f n).maxF2 = runMax (fun i => (f i).F2) n := by
  induction n with
  | zero => simp [scanBuffer, Extremes.init, runMin, runMax]
  | succ k ih =>
    obtain ⟨h1, h2, h3, h4, h5, h6⟩ := ih
    simp [scanBuffer, scanPoint, runMin, runMax, h1, h2, h3, h4, h5, h6]

theorem runMin_le_init (g : Nat → Int) (n : Nat) : runMin g n ≤ 0xFFFF := by
  induction n with
  | zero => simp [runMin]
  | succ k ih => simp only [runMin]; split <;> omega

theorem runMin_le (g : Nat → Int) (n : Nat) : ∀ i, i < n → runMin g n ≤ g i := by
  induction n with
  | zero => intro i hi; omega
  | succ k ih =>
    intro i hi
    simp only [runMin]
    rcases Nat.lt_succ_iff_lt_or_eq.mp hi with h | h
    · have := ih i h
      split <;> omega
    · subst h
      split <;> omega

theorem runMin_mem (g : Nat → Int) (n : Nat) :
    runMin g n = 0xFFFF ∨ ∃ i, i < n ∧ g i = runMin g n := by
  induction n with
  | zero => left; simp [runMin]
  | succ k ih =>
    simp only [runMin]
    split
    · right; exact ⟨k, Nat.lt_succ_self k, rfl⟩
    · rcases ih with h | ⟨i, hi, h⟩
      · left; exact h
      · right; exact ⟨i, Nat.lt_succ_of_lt hi, h⟩

theorem runMax_ge_init (g : Nat → Int) (n : Nat) : 0 ≤ runMax g n := by
  induction n with
  | zero => simp [runMax]
  | succ k ih => simp only [runMax]; split <;> omega

theorem le_runMax (g : Nat → Int) (n : Nat) : ∀ i, i < n → g i ≤ runMax g n := by
  induction n with
  | zero => intro i hi; omega
  | succ k ih =>
    intro i hi
    simp only [runMax]
    rcases Nat.lt_succ_iff_lt_or_eq.mp hi with h | h
    · have := ih i h
      split <;> omega
    · subst h
      split <;> omega

theorem runMax_mem (g : Nat → Int) (n : Nat) :
    runMax g n = 0 ∨ ∃ i, i < n ∧ g i = runMax g n := by
  induction n with
  | zero => left; simp [runMax]
  | succ k ih =>
    simp only [runMax]
    split
    · right; exact ⟨k, Nat.lt_succ_self k, rfl⟩
    · rcases ih with h | ⟨i, hi, h⟩
      · left; exact h
      · right; exact ⟨i, Nat.lt_succ_of_lt hi, h⟩

theorem runMin_eq_of_isMin (g : Nat → Int) (n : Nat) (m : Int) (h : IsMinOver g n m)
    (hm : m ≤ 0xFFFF) : runMin g n = m := by
  obtain ⟨⟨i, hi, hgi⟩, hle⟩ := h
  have h1 := runMin_le g n i hi
  rcases runMin_mem g n with h2 | ⟨j, hj, h2⟩
  · omega
  · have := hle j hj
    omega

theorem runMax_eq_of_isMax (g : Nat → Int) (n : Nat) (m : Int) (h : IsMaxOver g n m)
    (hm : 0 ≤ m) : runMax g n = m := by
  obtain ⟨⟨i, hi, hgi⟩, hle⟩ := h
  have h1 := le_runMax g n i hi
  rcases runMax_mem g n with h2 | ⟨j, hj, h2⟩
  · omega
  · have := hle j hj
    omega

theorem isSegmentSuitableForExtract_iff (options : Options) (f : Nat → FeatureVector) (n : Nat) :
    isSegmentSuitableForExtract options f n = true ↔
      calculatePercentDifference (runMin (fun i => (f i).Pitch) n)
          (runMax (fun i => (f i).Pitch) n) ≤ options.PitchThreshold ∧
      calculatePercentDifference (runMin (fun i => (f i).F1) n)
          (runMax (fun i => (f i).F1) n) ≤ options.F1Threshold ∧
      calculatePercentDifference (runMin (fun i => (f i).F2) n)
          (runMax (fun i => (f i).F2) n) ≤ options.F2Threshold := by
  obtain ⟨h1, h2, h3, h4, h5, h6⟩ := scanBuffer_eq f n
  simp only [isSegmentSuitableForExtract, h1, h2, h3, h4, h5, h6, gt_iff_lt]
  by_cases hp : options.PitchThreshold < calculatePercentDifference
      (runMin (fun i => (f i).Pitch) n) (runMax (fun i => (f i).Pitch) n) <;>
  by_cases hf1 : options.F1Threshold < calculatePercentDifference
      (runMin (fun i => (f i).F1) n) (runMax (fun i => (f i).F1) n) <;>
  by_cases hf2 : options.F2Threshold < calculatePercentDifference
      (runMin (fun i => (f i).F2) n) (runMax (fun i => (f i).F2) n) <;>
  simp [hp, hf1, hf2, not_lt.mp, not_le.mpr]

/-- A field with a zero, a non-zero value and values of one sign only has the sentinel as its
percent difference: one running extreme is 0 and the other is not. -/
theorem zeroAmongOneSign_sentinel (g : Nat → Int) (n : Nat) (h : ZeroAmongOneSign g n) :
    calculatePercentDifference (runMin g n) (runMax g n) = 1000 := by
  obtain ⟨⟨i0, hi0, hz⟩, ⟨i1, hi1, hnz⟩, hsign⟩ := h
  have hminle := runMin_le g n i0 hi0
  have hmaxge := le_runMax g n i0 hi0
  rcases hsign with hpos | hneg
  · have hmin : runMin g n = 0 := by
      rcases runMin_mem g n with h2 | ⟨j, hj, h2⟩
      · omega
      · have := hpos j hj
        omega
    have hmax : 0 < runMax g n := by
      have h1 := le_runMax g n i1 hi1
      have := hpos i1 hi1
      omega
    have hne : ((runMax g n : Int) : ℚ) ≠ 0 := by
      exact_mod_cast hmax.ne'
    rw [hmin]
    simp [calculatePercentDifference, hne, hne.symm]
  · have hmax : runMax g n = 0 := by
      rcases runMax_mem g n with h2 | ⟨j, hj, h2⟩
      · exact h2
      · have := hneg j hj
        omega
    have hmin : runMin g n < 0 := by
      have h1 := runMin_le g n i1 hi1
      have := hneg i1 hi1
      omega
    have hne : ((runMin g n : Int) : ℚ) ≠ 0 := by
      exact_mod_cast hmin.ne
    rw [hmax]
    simp [calculatePercentDifference, hne]

/-! ## The reading loop: auxiliary facts -/

theorem ingest_count (n line : Nat) (st : LoopState) (fr : Frame) :
    (ingest n line st fr).countPointsInCurrentSegment =
      if isVoiced fr.fv = true then st.countPointsInCurrentSegment + 1 else 0 := by
  simp only [ingest, Function.update_same]
  cases isVoiced fr.fv <;> simp

theorem ingest_features (n line : Nat) (st : LoopState) (fr : Frame) :
    (ingest n line st fr).features = Function.update st.features (line % n) fr.fv := rfl

theorem ingest_szLineBuffer (n line : Nat) (st : LoopState) (fr : Frame) :
    (ingest n line st fr).szLineBuffer = Function.update st.szLineBuffer (line % n) fr.szLine :=
  rfl

theorem ingest_extracted (n line : Nat) (st : LoopState) (fr : Frame) :
    (ingest n line st fr).extracted = st.extracted := rfl

theorem ingest_evaluated (n line : Nat) (st : LoopState) (fr : Frame) :
    (ingest n line st fr).evaluated = st.evaluated := rfl

theorem ingest_fpOutData (n line : Nat) (st : LoopState) (fr : Frame) :
    (ingest n line st fr).fpOutData = st.fpOutData := rfl

theorem loopBody_of_not_full (options : Options) (n line : Nat) (st : LoopState) (fr : Frame)
    (h : (ingest n line st fr).countPointsInCurrentSegment ≠ n) :
    loopBody options n line st fr = ingest n line st fr := by
  simp only [loopBody, if_neg h]

theorem loopBody_of_reject (options : Options) (n line : Nat) (st : LoopState) (fr : Frame)
    (h : (ingest n line st fr).countPointsInCurrentSegment = n)
    (hv : isSegmentSuitableForExtract options (ingest n line st fr).features n = false) :
    loopBody options n line st fr =
      rejectSegment (recordVerdict line false (ingest n line st fr)) := by
  simp only [loopBody, if_pos h, hv]
  simp

theorem loopBody_of_accept (options : Options) (n line : Nat) (st : LoopState) (fr : Frame)
    (h : (ingest n line st fr).countPointsInCurrentSegment = n)
    (hv : isSegmentSuitableForExtract options (ingest n line st fr).features n = true) :
    loopBody options n line st fr =
      acceptSegment options n line (recordVerdict line true (ingest n line st fr)) := by
  simp only [loopBody, if_pos h, hv]
  simp

theorem mod_ne_of_lt_of_lt {n j k : Nat} (h1 : j < k) (h2 : k < j + n) : j % n ≠ k % n := by
  intro h
  have h3 : (k - j) % n = 0 := Nat.sub_mod_eq_zero_of_mod_eq h.symm
  have h4 : (k - j) % n = k - j := Nat.mod_eq_of_lt (by omega)
  omega

theorem sub_mod_self {n m : Nat} (h : n ≤ m) : (m - n) % n = m % n := by
  conv_rhs => rw [← Nat.sub_add_cancel h]
  rw [Nat.add_mod_right]

theorem loopInv_init (options : Options) (n : Nat) (stream : Nat → Frame) (hn : 1 ≤ n)
    (b : Nat → String) (f : Nat → FeatureVector) :
    LoopInv options n stream 0 (LoopState.init b f) where
  count_nonneg := by simp [LoopState.init]
  count_lt := by simp [LoopState.init]; omega
  count_le := by simp [LoopState.init]
  voiced := fun j hj => absurd hj (Nat.not_lt_zero j)
  ring_fv := fun j hj => absurd hj (Nat.not_lt_zero j)
  ring_line := fun j hj => absurd hj (Nat.not_lt_zero j)
  out := rfl
  seg_gap := by simp [LoopState.init]
  seg_wf := by simp [LoopState.init]
  seg_sep := by simp [LoopState.init]
  eval_wf := by simp [LoopState.init]
  seg_eval := by simp [LoopState.init]

theorem checkInv_ingest (options : Options) (n : Nat) (stream : Nat → Frame) (k : Nat)
    (st : LoopState) (h : LoopInv options n stream k st) :
    CheckInv n stream k st (ingest n k st (stream k)) := by
  have hc := ingest_count n k st (stream k)
  have h1 := h.count_nonneg
  have h2 := h.count_lt
  have h3 := h.count_le
  refine ⟨hc, ?_, ?_, ?_, ?_, ?_, ?_⟩
  · rw [hc]; split <;> omega
  · rw [hc]; split <;> omega
  · rw [hc]; split <;> omega
  · intro j hj hle
    rw [hc] at hle
    by_cases hv : isVoiced (stream k).fv = true
    · rw [if_pos hv] at hle
      rcases Nat.lt_succ_iff_lt_or_eq.mp hj with hlt | heq
      · exact h.voiced j hlt (by omega)
      · rw [heq]; exact hv
    · rw [if_neg hv] at hle
      omega
  · intro j hj hle
    rw [ingest_features]
    rcases Nat.lt_succ_iff_lt_or_eq.mp hj with hlt | heq
    · rw [Function.update_noteq (mod_ne_of_lt_of_lt hlt (by omega))]
      exact h.ring_fv j hlt (by omega)
    · rw [heq, Function.update_same]
  · intro j hj hle
    rw [ingest_szLineBuffer]
    rcases Nat.lt_succ_iff_lt_or_eq.mp hj with hlt | heq
    · rw [Function.update_noteq (mod_ne_of_lt_of_lt hlt (by omega))]
      exact h.ring_line j hlt (by omega)
    · rw [heq, Function.update_same]

/-- The segment the accepting branch records is the expected one. -/
theorem acceptSegment_extracted (options : Options) (n : Nat) (stream : Nat → Frame) (k : Nat)
    (st1 : LoopState) (hn : 1 ≤ n) (hk : n ≤ k + 1)
    (hout : st1.fpOutData = [MATRIX_HEADER])
    (hfv : ∀ j, j < k + 1 → k + 1 ≤ j + n → st1.features (j % n) = (stream j).fv)
    (hline : ∀ j, j < k + 1 → k + 1 ≤ j + n → st1.szLineBuffer (j % n) = (stream j).szLine) :
    (acceptSegment options n k st1).extracted =
      st1.extracted ++ [expectedSegment options n stream k] := by
  have hs : (k + 1) % n = (k + 1 - n) % n := (sub_mod_self hk).symm
  have hrows : ((List.range n).map fun t => st1.szLineBuffer (((k + 1) % n + t) % n)) =
      (List.range n).map fun t => (stream (k + 1 - n + t)).szLine := by
    apply List.map_congr_left
    intro t ht
    have ht' : t < n := List.mem_range.mp ht
    have e : ((k + 1) % n + t) % n = (k + 1 - n + t) % n := by
      rw [Nat.mod_add_mod]
      have : k + 1 + t = (k + 1 - n + t) + n := by omega
      rw [this, Nat.add_mod_right]
    rw [e]
    exact hline _ (by omega) (by omega)
  simp only [acceptSegment, expectedSegment, hout, hrows]
  rw [hs, hfv (k + 1 - n) (by omega) (by omega), hfv k (by omega) (by omega)]
  cases options.IsTestMode <;> simp

theorem loopInv_step (options : Options) (n : Nat) (stream : Nat → Frame) (hn : 1 ≤ n) (k : Nat)
    (st : LoopState) (h : LoopInv options n stream k st) :
    LoopInv options n stream (k + 1) (loopBody options n k st (stream k)) := by
  have c := checkInv_ingest options n stream k st h
  have hc := c.count_eq
  have h1 := h.count_nonneg
  have h2 := h.count_lt
  by_cases hfull : (ingest n k st (stream k)).countPointsInCurrentSegment = n
  · -- the window is full: the point is voiced and the count was `n - 1`
    have hv : isVoiced (stream k).fv = true := by
      by_contra hv
      rw [if_neg hv] at hc
      omega
    rw [if_pos hv] at hc
    have hprev : st.countPointsInCurrentSegment = (n : Int) - 1 := by omega
    have hk : n ≤ k + 1 := by
      have := c.count_le
      omega
    have hwin : ∀ j, k + 1 ≤ j + n → j ≤ k → isVoiced (stream j).fv = true := fun j hj hjk =>
      c.voiced j (by omega) (by omega)
    cases hver : isSegmentSuitableForExtract options (ingest n k st (stream k)).features n
    · rw [loopBody_of_reject options n k st (stream k) hfull hver]
      have hcnt : (rejectSegment (recordVerdict k false
          (ingest n k st (stream k)))).countPointsInCurrentSegment = (n : Int) - 1 := by
        simp only [rejectSegment, recordVerdict, hfull]
      refine ⟨by rw [hcnt]; omega, by rw [hcnt]; omega, by rw [hcnt]; omega, ?_, c.ring_fv,
        c.ring_line, h.out, ?_, h.seg_wf, h.seg_sep, ?_, ?_⟩
      · intro j hj hle
        rw [hcnt] at hle
        exact c.voiced j hj (by omega)
      · intro seg hseg
        have := h.seg_gap seg hseg
        rw [hcnt]
        omega
      · intro e he
        simp only [rejectSegment, recordVerdict, ingest_evaluated, List.mem_append,
          List.mem_singleton] at he
        rcases he with he | he
        · obtain ⟨e1, e2, e3⟩ := h.eval_wf e he
          exact ⟨by omega, e2, e3⟩
        · subst he
          exact ⟨by simp, hk, hwin⟩
      · intro seg hseg
        simp only [rejectSegment, recordVerdict, ingest_evaluated, List.mem_append,
          List.mem_singleton]
        exact Or.inl (h.seg_eval seg hseg)
    · rw [loopBody_of_accept options n k st (stream k) hfull hver]
      have hex := acceptSegment_extracted options n stream k
        (recordVerdict k true (ingest n k st (stream k)))
        hn hk h.out c.ring_fv c.ring_line
      have hex0 : (recordVerdict k true (ingest n k st (stream k))).extracted = st.extracted :=
        rfl
      rw [hex0] at hex
      have hcount : ∀ s1 : LoopState,
          (acceptSegment options n k s1).countPointsInCurrentSegment = 0 := fun _ => rfl
      have hfv : ∀ s1 : LoopState, (acceptSegment options n k s1).features = s1.features :=
        fun _ => rfl
      have hln : ∀ s1 : LoopState,
          (acceptSegment options n k s1).szLineBuffer = s1.szLineBuffer := fun _ => rfl
      have hev : ∀ s1 : LoopState, (acceptSegment options n k s1).evaluated = s1.evaluated :=
        fun _ => rfl
      refine ⟨by rw [hcount], by rw [hcount]; omega, by rw [hcount]; omega, ?_, ?_, ?_, ?_, ?_,
        ?_, ?_, ?_, ?_⟩
      · intro j hj hle
        rw [hcount] at hle
        omega
      · rw [hfv]; exact c.ring_fv
      · rw [hln]; exact c.ring_line
      · simp only [acceptSegment]
        cases options.IsTestMode
        · simp
        · simpa using h.out
      · intro seg hseg
        rw [hcount]
        rw [hex, List.mem_append, List.mem_singleton] at hseg
        rcases hseg with hseg | hseg
        · have := h.seg_gap seg hseg
          omega
        · subst hseg
          simp [expectedSegment]
      · intro seg hseg
        rw [hex, List.mem_append, List.mem_singleton] at hseg
        rcases hseg with hseg | hseg
        · exact h.seg_wf seg hseg
        · subst hseg
          exact ⟨rfl, hk⟩
      · rw [hex, List.pairwise_append]
        refine ⟨h.seg_sep, List.pairwise_singleton _ _, ?_⟩
        intro a ha b hb
        rw [List.mem_singleton] at hb
        subst hb
        have := h.seg_gap a ha
        simp only [expectedSegment]
        omega
      · intro e he
        rw [hev] at he
        simp only [recordVerdict, ingest_evaluated, List.mem_append, List.mem_singleton] at he
        rcases he with he | he
        · obtain ⟨e1, e2, e3⟩ := h.eval_wf e he
          exact ⟨by omega, e2, e3⟩
        · subst he
          exact ⟨by simp, hk, hwin⟩
      · intro seg hseg
        rw [hev]
        rw [hex, List.mem_append, List.mem_singleton] at hseg
        simp only [recordVerdict, ingest_evaluated, List.mem_append, List.mem_singleton]
        rcases hseg with hseg | hseg
        · exact Or.inl (h.seg_eval seg hseg)
        · subst hseg
          exact Or.inr rfl
  · -- the window is not full: only the ingest happened
    rw [loopBody_of_not_full options n k st (stream k) hfull]
    have hlt : (ingest n k st (stream k)).countPointsInCurrentSegment < n :=
      lt_of_le_of_ne c.count_le_n hfull
    refine ⟨c.count_nonneg, hlt, c.count_le, c.voiced, c.ring_fv, c.ring_line, h.out, ?_,
      h.seg_wf, h.seg_sep, ?_, h.seg_eval⟩
    · intro seg hseg
      have := h.seg_gap seg hseg
      rw [hc]
      split <;> omega
    · intro e he
      obtain ⟨e1, e2, e3⟩ := h.eval_wf e he
      exact ⟨by omega, e2, e3⟩

theorem loopInv_mainLoop (options : Options) (n : Nat) (stream : Nat → Frame) (hn : 1 ≤ n)
    (b : Nat → String) (f : Nat → FeatureVector) (k : Nat) :
    LoopInv options n stream k (mainLoop options n (LoopState.init b f) stream k) := by
  induction k with
  | zero => exact loopInv_init options n stream hn b f
  | succ k ih => exact loopInv_step options n stream hn k _ ih

theorem mainLoop_succ_of_accept (options : Options) (n : Nat) (init : LoopState)
    (stream : Nat → Frame) (i : Nat) (h : acceptsAt options n init stream i) :
    mainLoop options n init stream (i + 1) =
      acceptSegment options n i (recordVerdict i true (stateAtCheck options n init stream i)) :=
  loopBody_of_accept options n i _ _ h.1 h.2

theorem mainLoop_succ_of_reject (options : Options) (n : Nat) (init : LoopState)
    (stream : Nat → Frame) (i : Nat) (h : rejectsAt options n init stream i) :
    mainLoop options n init stream (i + 1) =
      rejectSegment (recordVerdict i false (stateAtCheck options n init stream i)) :=
  loopBody_of_reject options n i _ _ h.1 h.2

theorem mainLoop_succ_of_not_full (options : Options) (n : Nat) (init : LoopState)
    (stream : Nat → Frame) (i : Nat) (h : ¬ evaluatesAt options n init stream i) :
    mainLoop options n init stream (i + 1) = stateAtCheck options n init stream i :=
  loopBody_of_not_full options n i _ _ h

/-- Every iteration that evaluates appends exactly one entry to the trace of calls. -/
theorem mainLoop_succ_evaluated (options : Options) (n : Nat) (init : LoopState)
    (stream : Nat → Frame) (i : Nat) (h : evaluatesAt options n init stream i) :
    (mainLoop options n init stream (i + 1)).evaluated =
      (mainLoop options n init stream i).evaluated ++
        [(i, verdictAt options n init stream i)] := by
  cases hv : verdictAt options n init stream i
  · rw [mainLoop_succ_of_reject options n init stream i ⟨h, hv⟩]
    rfl
  · rw [mainLoop_succ_of_accept options n init stream i ⟨h, hv⟩]
    rfl

theorem loopBody_extracted_grows (options : Options) (n line : Nat) (st : LoopState)
    (fr : Frame) : ∃ l, (loopBody options n line st fr).extracted = st.extracted ++ l := by
  by_cases hfull : (ingest n line st fr).countPointsInCurrentSegment = n
  · cases hver : isSegmentSuitableForExtract options (ingest n line st fr).features n
    · rw [loopBody_of_reject options n line st fr hfull hver]
      exact ⟨[], by simp [rejectSegment, recordVerdict, ingest_extracted]⟩
    · rw [loopBody_of_accept options n line st fr hfull hver]
      exact ⟨_, rfl⟩
  · rw [loopBody_of_not_full options n line st fr hfull]
    exact ⟨[], by simp [ingest_extracted]⟩

theorem extracted_mono (options : Options) (n : Nat) (init : LoopState) (stream : Nat → Frame)
    (seg : Segment) (k t : Nat) (h : seg ∈ (mainLoop options n init stream k).extracted) :
    seg ∈ (mainLoop options n init stream (k + t)).extracted := by
  induction t with
  | zero => exact h
  | succ t ih =>
    obtain ⟨l, hl⟩ := loopBody_extracted_grows options n (k + t)
      (mainLoop options n init stream (k + t)) (stream (k + t))
    show seg ∈ (loopBody options n (k + t) (mainLoop options n init stream (k + t))
      (stream (k + t))).extracted
    rw [hl]
    exact List.mem_append_left l ih

/-- While voiced points arrive and the window is not yet full, the loop only counts. -/
theorem mainLoop_voiced_run (options : Options) (n : Nat) (init : LoopState)
    (stream : Nat → Frame) (i t : Nat)
    (hv : ∀ j, j < t → isVoiced (stream (i + j)).fv = true)
    (hlt : (mainLoop options n init stream i).countPointsInCurrentSegment + t < n) :
    (mainLoop options n init stream (i + t)).countPointsInCurrentSegment =
        (mainLoop options n init stream i).countPointsInCurrentSegment + t ∧
      (mainLoop options n init stream (i + t)).extracted =
        (mainLoop options n init stream i).extracted ∧
      (mainLoop options n init stream (i + t)).evaluated =
        (mainLoop options n init stream i).evaluated := by
  induction t with
  | zero => simp
  | succ t ih =>
    obtain ⟨h1, h2, h3⟩ := ih (fun j hj => hv j (Nat.lt_succ_of_lt hj))
      (by push_cast at hlt ⊢; omega)
    have hc := ingest_count n (i + t) (mainLoop options n init stream (i + t)) (stream (i + t))
    rw [if_pos (hv t (Nat.lt_succ_self t)), h1] at hc
    have hnf : ¬ evaluatesAt options n init stream (i + t) := by
      unfold evaluatesAt stateAtCheck
      rw [hc]
      push_cast at hlt
      omega
    have hs : mainLoop options n init stream (i + (t + 1)) =
        stateAtCheck options n init stream (i + t) :=
      mainLoop_succ_of_not_full options n init stream (i + t) hnf
    rw [hs]
    refine ⟨?_, ?_, ?_⟩
    · unfold stateAtCheck
      rw [hc]
      push_cast
      ring
    · exact h2
    · exact h3

theorem scanBuffer_congr (f g : Nat → FeatureVector) (n : Nat) (h : ∀ j, j < n → f j = g j) :
    scanBuffer f n = scanBuffer g n := by
  induction n with
  | zero => rfl
  | succ k ih =>
    simp only [scanBuffer]
    rw [ih (fun j hj => h j (Nat.lt_succ_of_lt hj)), h k (Nat.lt_succ_self k)]

theorem isSegmentSuitableForExtract_congr (options : Options) (f g : Nat → FeatureVector)
    (n : Nat) (h : ∀ j, j < n → f j = g j) :
    isSegmentSuitableForExtract options f n = isSegmentSuitableForExtract options g n := by
  simp only [isSegmentSuitableForExtract, scanBuffer_congr f g n h]

/-- What an accepting iteration does: at least `n` frames were read, the two ring slots read
by the code hold the times of the first and last frame of the window, and the expected segment
is appended. -/
theorem accept_step (options : Options) (n : Nat) (b : Nat → String)
    (f : Nat → FeatureVector) (stream : Nat → Frame) (hn : 1 ≤ n) (i : Nat)
    (hacc : acceptsAt options n (LoopState.init b f) stream i) :
    n ≤ i + 1 ∧
    ((stateAtCheck options n (LoopState.init b f) stream i).features ((i + 1) % n)).Time =
      (stream (i + 1 - n)).fv.Time ∧
    ((stateAtCheck options n (LoopState.init b f) stream i).features (i % n)).Time =
      (stream i).fv.Time ∧
    (mainLoop options n (LoopState.init b f) stream (i + 1)).extracted =
      (mainLoop options n (LoopState.init b f) stream i).extracted ++
        [expectedSegment options n stream i] := by
  have inv := loopInv_mainLoop options n stream hn b f i
  have c := checkInv_ingest options n stream i _ inv
  have hk : n ≤ i + 1 := by
    have h1 := c.count_le
    have h2 : (ingest n i (mainLoop options n (LoopState.init b f) stream i)
      (stream i)).countPointsInCurrentSegment = n := hacc.1
    omega
  refine ⟨hk, ?_, ?_, ?_⟩
  · rw [← sub_mod_self hk]
    exact congrArg FeatureVector.Time (c.ring_fv (i + 1 - n) (by omega) (by omega))
  · exact congrArg FeatureVector.Time (c.ring_fv i (by omega) (by omega))
  · rw [mainLoop_succ_of_accept options n (LoopState.init b f) stream i hacc]
    exact acceptSegment_extracted options n stream i _ hn hk inv.out c.ring_fv c.ring_line

/-! ## Start-up: the frames per segment of the sample options -/

theorem nBufferPointsOf_tenthOptions : nBufferPointsOf tenthOptions = 5 := by
  have h : (1 / 2 + (EXTRACT_MS / 1000) / tenthOptions.TimeStep : ℚ) = 11 / 2 := by
    norm_num [EXTRACT_MS, tenthOptions]
  unfold nBufferPointsOf truncToInt
  rw [h, if_pos (by norm_num), Int.floor_eq_iff]
  norm_num

theorem nBufferPointsOf_halfOptions : nBufferPointsOf halfOptions = 1 := by
  have h : (1 / 2 + (EXTRACT_MS / 1000) / halfOptions.TimeStep : ℚ) = 3 / 2 := by
    norm_num [EXTRACT_MS, halfOptions]
  unfold nBufferPointsOf truncToInt
  rw [h, if_pos (by norm_num), Int.floor_eq_iff]
  norm_num

theorem nBufferPointsOf_quarterOptions : nBufferPointsOf quarterOptions = 2 := by
  have h : (1 / 2 + (EXTRACT_MS / 1000) / quarterOptions.TimeStep : ℚ) = 5 / 2 := by
    norm_num [EXTRACT_MS, quarterOptions]
  unfold nBufferPointsOf truncToInt
  rw [h, if_pos (by norm_num), Int.floor_eq_iff]
  norm_num

/-- What a rejecting iteration does: the counter becomes `n - 1` and nothing is emitted. -/
theorem reject_step (options : Options) (n : Nat) (init : LoopState) (stream : Nat → Frame)
    (i : Nat) (hrej : rejectsAt options n init stream i) :
    (mainLoop options n init stream (i + 1)).countPointsInCurrentSegment = (n : Int) - 1 ∧
    (mainLoop options n init stream (i + 1)).extracted =
      (mainLoop options n init stream i).extracted := by
  rw [mainLoop_succ_of_reject options n init stream i hrej]
  have h : (stateAtCheck options n init stream i).countPointsInCurrentSegment = n := hrej.1
  exact ⟨by simp only [rejectSegment, recordVerdict, h], rfl⟩

/-! ## The claims -/

/-- C1: for `n >= 1`, whenever iteration `i` accepts its window, at least `n` frames were read,
the two ring slots the code reads hold the times of frames `i + 1 - n` and `i`, and the segment
appended to the output is the expected one: boundary from the time of frame `i + 1 - n` to the
time of frame `i`, and (outside test mode) a feature file made of the header and the rows of
frames `i + 1 - n .. i` in stream order.  In particular a stream of exactly `n` voiced frames
that the evaluator accepts yields the single boundary from the first to the last frame. -/
theorem accepted_window_is_last_n_frames (options : Options) (n : Nat) (b : Nat → String)
    (f : Nat → FeatureVector) (stream : Nat → Frame) (hn : 1 ≤ n) :
    (∀ i, acceptsAt options n (LoopState.init b f) stream i →
      n ≤ i + 1 ∧
      ((stateAtCheck options n (LoopState.init b f) stream i).features ((i + 1) % n)).Time =
        (stream (i + 1 - n)).fv.Time ∧
      ((stateAtCheck options n (LoopState.init b f) stream i).features (i % n)).Time =
        (stream i).fv.Time ∧
      (mainLoop options n (LoopState.init b f) stream (i + 1)).extracted =
        (mainLoop options n (LoopState.init b f) stream i).extracted ++
          [expectedSegment options n stream i]) ∧
    ((∀ j, j < n → isVoiced (stream j).fv = true) →
      isSegmentSuitableForExtract options (fun j => (stream j).fv) n = true →
      (mainLoop options n (LoopState.init b f) stream n).extracted =
        [expectedSegment options n stream (n - 1)]) := by
  have key := accept_step options n b f stream hn
  refine ⟨key, ?_⟩
  intro hv hhom
  obtain ⟨m, rfl⟩ : ∃ m, n = m + 1 := ⟨n - 1, by omega⟩
  have hrun := mainLoop_voiced_run options (m + 1) (LoopState.init b f) stream 0 m
    (fun j hj => by rw [Nat.zero_add]; exact hv j (by omega))
    (by show ((0 : Int) + (m : Int) < ((m + 1 : Nat) : Int)); push_cast; omega)
  rw [Nat.zero_add] at hrun
  obtain ⟨h1, h2, -⟩ := hrun
  have h0 : (mainLoop options (m + 1) (LoopState.init b f) stream 0).extracted = [] := rfl
  have hc0 : (mainLoop options (m + 1) (LoopState.init b f) stream 0).countPointsInCurrentSegment
      = 0 := rfl
  rw [hc0] at h1
  rw [h0] at h2
  have inv := loopInv_mainLoop options (m + 1) stream hn b f m
  have c := checkInv_ingest options (m + 1) stream m _ inv
  have hfull : evaluatesAt options (m + 1) (LoopState.init b f) stream m := by
    unfold evaluatesAt stateAtCheck
    rw [c.count_eq, if_pos (hv m (Nat.lt_succ_self m)), h1]
    push_cast
    ring
  have hver : verdictAt options (m + 1) (LoopState.init b f) stream m = true := by
    unfold verdictAt stateAtCheck
    rw [← hhom]
    apply isSegmentSuitableForExtract_congr
    intro j hj
    have := c.ring_fv j hj (by omega)
    rwa [Nat.mod_eq_of_lt hj] at this
  have := (key m ⟨hfull, hver⟩).2.2.2
  rw [h2, List.nil_append] at this
  simpa using this

/-- Scenario A: five steady voiced frames at 0, 20, 40, 60, 80 ms with five frames per segment
give exactly one segment, with boundary `[0, 80]`. -/
theorem accepted_window_is_last_n_frames_witness :
    1 ≤ 5 ∧
    (∀ j, j < 5 → isVoiced (steadyStream j).fv = true) ∧
    isSegmentSuitableForExtract defaultOptions (fun j => (steadyStream j).fv) 5 = true ∧
    (mainLoop defaultOptions 5 (LoopState.init (fun _ => "") (fun _ => mkRecord 0 0 0 0 0 0))
      steadyStream 5).extracted = [expectedSegment defaultOptions 5 steadyStream (5 - 1)] ∧
    (expectedSegment defaultOptions 5 steadyStream (5 - 1)).tStart = 0 ∧
    (expectedSegment defaultOptions 5 steadyStream (5 - 1)).tEnd = 80 := by
  have hv : ∀ j, j < 5 → isVoiced (steadyStream j).fv = true := by
    intro j _
    simp [isVoiced, steadyStream, mkRecord, MINIMUM_INTENSITY]
  have hh : isSegmentSuitableForExtract defaultOptions (fun j => (steadyStream j).fv) 5 = true := by
    simp [isSegmentSuitableForExtract, scanBuffer, scanPoint, Extremes.init, steadyStream,
      mkRecord, calculatePercentDifference, defaultOptions, THRESHOLD_PITCH, THRESHOLD_F1,
      THRESHOLD_F2]
  exact ⟨by decide, hv, hh,
    (accepted_window_is_last_n_frames defaultOptions 5 _ _ steadyStream (by decide)).2 hv hh,
    by simp [expectedSegment, steadyStream, mkRecord],
    by simp [expectedSegment, steadyStream, mkRecord]⟩

/-- C2 (as stated) fails: with a time step of 0.25 s (two frames per segment) and the
non-decreasing frame times 0, 250, 250, 500 ms the loop emits `[0, 250]` and then `[250, 500]`,
and the end of the first is not strictly less than the start of the second. -/
theorem consecutive_segments_not_strictly_apart :
    nBufferPointsOf quarterOptions = 2 ∧
    (∀ i j, i ≤ j → (repeatStream i).fv.Time ≤ (repeatStream j).fv.Time) ∧
    ((mainLoop quarterOptions 2 sampleInit repeatStream 4).extracted.map
      fun s => (s.tStart, s.tEnd)) = [(0, 250), (250, 500)] ∧
    ¬ List.Chain' (fun a b : Segment => a.tEnd < b.tStart)
      (mainLoop quarterOptions 2 sampleInit repeatStream 4).extracted := by
  refine ⟨nBufferPointsOf_quarterOptions, ?_, ?_, ?_⟩
  · intro i j h
    simp only [repeatStream, mkRecord]
    have : (i + 1) / 2 ≤ (j + 1) / 2 := by omega
    omega
  · simp [mainLoop, loopBody, ingest, acceptSegment, recordVerdict, rejectSegment, sampleInit,
      LoopState.init, repeatStream, mkRecord, isVoiced, MINIMUM_INTENSITY,
      isSegmentSuitableForExtract, scanBuffer, scanPoint, Extremes.init,
      calculatePercentDifference, quarterOptions, defaultOptions, THRESHOLD_PITCH, THRESHOLD_F1,
      THRESHOLD_F2, Function.update]
  · simp [mainLoop, loopBody, ingest, acceptSegment, recordVerdict, rejectSegment, sampleInit,
      LoopState.init, repeatStream, mkRecord, isVoiced, MINIMUM_INTENSITY,
      isSegmentSuitableForExtract, scanBuffer, scanPoint, Extremes.init,
      calculatePercentDifference, quarterOptions, defaultOptions, THRESHOLD_PITCH, THRESHOLD_F1,
      THRESHOLD_F2, Function.update]

/-- C2 (amended): for `n >= 1`, when the frame times are non-decreasing the end of each emitted
segment is at most the start of the next one, and when the frame times are strictly increasing
it is strictly less. -/
theorem consecutive_segments_ordered (options : Options) (n : Nat) (b : Nat → String)
    (f : Nat → FeatureVector) (stream : Nat → Frame) (k : Nat) (hn : 1 ≤ n) :
    ((∀ i j, i ≤ j → (stream i).fv.Time ≤ (stream j).fv.Time) →
      List.Chain' (fun a b : Segment => a.tEnd ≤ b.tStart)
        (mainLoop options n (LoopState.init b f) stream k).extracted) ∧
    ((∀ i j, i < j → (stream i).fv.Time < (stream j).fv.Time) →
      List.Chain' (fun a b : Segment => a.tEnd < b.tStart)
        (mainLoop options n (LoopState.init b f) stream k).extracted) := by
  have inv := loopInv_mainLoop options n stream hn b f k
  constructor
  · intro hmono
    apply List.Pairwise.chain'
    refine List.Pairwise.imp_of_mem ?_ inv.seg_sep
    intro x y hx hy hxy
    obtain ⟨ex, -⟩ := inv.seg_wf x hx
    obtain ⟨ey, hny⟩ := inv.seg_wf y hy
    rw [ex, ey]
    exact hmono _ _ (by omega)
  · intro hmono
    apply List.Pairwise.chain'
    refine List.Pairwise.imp_of_mem ?_ inv.seg_sep
    intro x y hx hy hxy
    obtain ⟨ex, -⟩ := inv.seg_wf x hx
    obtain ⟨ey, hny⟩ := inv.seg_wf y hy
    rw [ex, ey]
    exact hmono _ _ (by omega)

/-- The steady stream (times 0, 20, 40, ...) with two frames per segment: the ends and starts
of consecutive segments are strictly ordered. -/
theorem consecutive_segments_ordered_witness :
    1 ≤ 2 ∧
    (∀ i j, i < j → (steadyStream i).fv.Time < (steadyStream j).fv.Time) ∧
    List.Chain' (fun a b : Segment => a.tEnd < b.tStart)
      (mainLoop defaultOptions 2 (LoopState.init (fun _ => "") (fun _ => mkRecord 0 0 0 0 0 0))
        steadyStream 6).extracted := by
  have hm : ∀ i j, i < j → (steadyStream i).fv.Time < (steadyStream j).fv.Time := by
    intro i j h
    simp only [steadyStream, mkRecord]
    omega
  exact ⟨by decide, hm,
    (consecutive_segments_ordered defaultOptions 2 (fun _ => "")
      (fun _ => mkRecord 0 0 0 0 0 0) steadyStream 6 (by decide)).2 hm⟩

/-- C3: for `n >= 1`, right after iteration `i` accepts its window the counter is 0; after `k`
further voiced frames, `k < n`, the counter is `k` and no further segment was emitted; and any
later accepting iteration `i2` has `i + n <= i2`, so its window starts at frame
`i2 + 1 - n > i`: consecutive accepted windows share no frame. -/
theorem accept_resets_counter (options : Options) (n : Nat) (b : Nat → String)
    (f : Nat → FeatureVector) (stream : Nat → Frame) (i : Nat) (hn : 1 ≤ n)
    (hacc : acceptsAt options n (LoopState.init b f) stream i) :
    (mainLoop options n (LoopState.init b f) stream (i + 1)).countPointsInCurrentSegment = 0 ∧
    (∀ k, k < n → (∀ j, j < k → isVoiced (stream (i + 1 + j)).fv = true) →
      (mainLoop options n (LoopState.init b f) stream (i + 1 + k)).countPointsInCurrentSegment
          = k ∧
        (mainLoop options n (LoopState.init b f) stream (i + 1 + k)).extracted =
          (mainLoop options n (LoopState.init b f) stream (i + 1)).extracted) ∧
    (∀ i2, i < i2 → acceptsAt options n (LoopState.init b f) stream i2 →
      i + n ≤ i2 ∧ i < i2 + 1 - n) := by
  have h0 : (mainLoop options n (LoopState.init b f) stream (i + 1)).countPointsInCurrentSegment
      = 0 := by
    rw [mainLoop_succ_of_accept options n (LoopState.init b f) stream i hacc]
    rfl
  refine ⟨h0, ?_, ?_⟩
  · intro k hk hv
    have hrun := mainLoop_voiced_run options n (LoopState.init b f) stream (i + 1) k hv
      (by rw [h0]; omega)
    rw [h0] at hrun
    exact ⟨by rw [hrun.1]; ring, hrun.2.1⟩
  · intro i2 hlt hacc2
    have hmem : expectedSegment options n stream i ∈
        (mainLoop options n (LoopState.init b f) stream (i + 1)).extracted := by
      rw [(accept_step options n b f stream hn i hacc).2.2.2]
      exact List.mem_append_right _ (List.mem_singleton_self _)
    have hmem2 := extracted_mono options n (LoopState.init b f) stream _ (i + 1)
      (i2 - (i + 1)) hmem
    have e : i + 1 + (i2 - (i + 1)) = i2 := by omega
    rw [e] at hmem2
    have inv2 := loopInv_mainLoop options n stream hn b f i2
    have c2 := checkInv_ingest options n stream i2 _ inv2
    have hgap := inv2.seg_gap _ hmem2
    have hfull : (ingest n i2 (mainLoop options n (LoopState.init b f) stream i2)
        (stream i2)).countPointsInCurrentSegment = n := hacc2.1
    have hce := c2.count_eq
    have hl : ((expectedSegment options n stream i).line : Int) = i := rfl
    rw [hl] at hgap
    by_cases hv : isVoiced (stream i2).fv = true
    · rw [if_pos hv] at hce
      omega
    · rw [if_neg hv] at hce
      omega

/-- Scenario C: six steady voiced frames with five frames per segment; frames 0-4 are accepted
at iteration 4, and after the one further frame the counter is 1 and the only segment is still
the one with boundary `[0, 80]`. -/
theorem accept_resets_counter_witness :
    1 ≤ 5 ∧
    acceptsAt defaultOptions 5 (LoopState.init (fun _ => "") (fun _ => mkRecord 0 0 0 0 0 0))
      steadyStream 4 ∧
    (mainLoop defaultOptions 5 (LoopState.init (fun _ => "") (fun _ => mkRecord 0 0 0 0 0 0))
      steadyStream (4 + 1 + 1)).countPointsInCurrentSegment = 1 ∧
    (mainLoop defaultOptions 5 (LoopState.init (fun _ => "") (fun _ => mkRecord 0 0 0 0 0 0))
      steadyStream (4 + 1 + 1)).extracted =
      (mainLoop defaultOptions 5 (LoopState.init (fun _ => "") (fun _ => mkRecord 0 0 0 0 0 0))
        steadyStream (4 + 1)).extracted := by
  have hacc : acceptsAt defaultOptions 5
      (LoopState.init (fun _ => "") (fun _ => mkRecord 0 0 0 0 0 0)) steadyStream 4 := by
    simp [acceptsAt, evaluatesAt, verdictAt, stateAtCheck, mainLoop, loopBody, ingest,
      acceptSegment, recordVerdict, rejectSegment, LoopState.init, steadyStream, mkRecord,
      isVoiced, MINIMUM_INTENSITY, isSegmentSuitableForExtract, scanBuffer, scanPoint,
      Extremes.init, calculatePercentDifference, defaultOptions, THRESHOLD_PITCH, THRESHOLD_F1,
      THRESHOLD_F2, Function.update]
  have h := (accept_resets_counter defaultOptions 5 (fun _ => "")
    (fun _ => mkRecord 0 0 0 0 0 0) steadyStream 4 (by decide) hacc).2.1 1 (by decide)
    (fun j _ => by simp [isVoiced, steadyStream, mkRecord, MINIMUM_INTENSITY])
  exact ⟨by decide, hacc, h.1, h.2⟩

/-- C4: for `n >= 1`, if the first `k` frames of the stream contain no run of `n` consecutive
voiced frames (every window of `n` frames inside them has an unvoiced frame; in particular
whenever `k < n`), then in those `k` iterations the evaluator is never called and no segment is
emitted. -/
theorem no_voiced_run_no_evaluation (options : Options) (n : Nat) (b : Nat → String)
    (f : Nat → FeatureVector) (stream : Nat → Frame) (k : Nat) (hn : 1 ≤ n)
    (hno : ∀ j, j + n ≤ k → ∃ m, j ≤ m ∧ m < j + n ∧ isVoiced (stream m).fv = false) :
    (∀ i, i < k → ¬ evaluatesAt options n (LoopState.init b f) stream i) ∧
    (mainLoop options n (LoopState.init b f) stream k).evaluated = [] ∧
    (mainLoop options n (LoopState.init b f) stream k).extracted = [] := by
  have inv := loopInv_mainLoop options n stream hn b f k
  have hev : (mainLoop options n (LoopState.init b f) stream k).evaluated = [] := by
    apply List.eq_nil_iff_forall_not_mem.mpr
    intro e he
    obtain ⟨h1, h2, h3⟩ := inv.eval_wf e he
    obtain ⟨m, hm1, hm2, hm3⟩ := hno (e.1 + 1 - n) (by omega)
    have := h3 m (by omega) (by omega)
    rw [hm3] at this
    exact Bool.noConfusion this
  refine ⟨?_, hev, ?_⟩
  · intro i hi hfull
    have inv1 := loopInv_mainLoop options n stream hn b f i
    have c1 := checkInv_ingest options n stream i _ inv1
    have hfull1 : (ingest n i (mainLoop options n (LoopState.init b f) stream i)
        (stream i)).countPointsInCurrentSegment = n := hfull
    have hk : n ≤ i + 1 := by
      have h1 := c1.count_le
      omega
    obtain ⟨m, hm1, hm2, hm3⟩ := hno (i + 1 - n) (by omega)
    have := c1.voiced m (by omega) (by rw [hfull1]; omega)
    rw [hm3] at this
    exact Bool.noConfusion this
  · apply List.eq_nil_iff_forall_not_mem.mpr
    intro seg hseg
    have := inv.seg_eval seg hseg
    rw [hev] at this
    exact List.not_mem_nil _ this

/-- Scenario B: the steady stream with frame 3 unvoiced and five frames per segment; the first
five frames give no call of the evaluator and no segment. -/
theorem no_voiced_run_no_evaluation_witness :
    1 ≤ 5 ∧
    (∀ j, j + 5 ≤ 5 → ∃ m, j ≤ m ∧ m < j + 5 ∧ isVoiced (gapStream m).fv = false) ∧
    (mainLoop defaultOptions 5 (LoopState.init (fun _ => "") (fun _ => mkRecord 0 0 0 0 0 0))
      gapStream 5).evaluated = [] ∧
    (mainLoop defaultOptions 5 (LoopState.init (fun _ => "") (fun _ => mkRecord 0 0 0 0 0 0))
      gapStream 5).extracted = [] := by
  have hno : ∀ j, j + 5 ≤ 5 → ∃ m, j ≤ m ∧ m < j + 5 ∧ isVoiced (gapStream m).fv = false := by
    intro j hj
    exact ⟨3, by omega, by omega, by simp [isVoiced, gapStream, mkRecord, MINIMUM_INTENSITY]⟩
  exact ⟨by decide, hno,
    (no_voiced_run_no_evaluation defaultOptions 5 (fun _ => "") (fun _ => mkRecord 0 0 0 0 0 0)
      gapStream 5 (by decide) hno).2⟩

/-- C5: for `n >= 1`, when iteration `i` evaluates its window and rejects it, the counter
becomes exactly `n - 1` and no segment is emitted; if frame `i + 1` is voiced, the counter is
back at `n` at the test of iteration `i + 1`, the ring then holds frames `i + 2 - n .. i + 1`
(the window shifted by one frame), and the evaluator is called on it. -/
theorem reject_shrinks_by_one (options : Options) (n : Nat) (b : Nat → String)
    (f : Nat → FeatureVector) (stream : Nat → Frame) (i : Nat) (hn : 1 ≤ n)
    (hrej : rejectsAt options n (LoopState.init b f) stream i) :
    (mainLoop options n (LoopState.init b f) stream (i + 1)).countPointsInCurrentSegment
      = (n : Int) - 1 ∧
    (mainLoop options n (LoopState.init b f) stream (i + 1)).extracted =
      (mainLoop options n (LoopState.init b f) stream i).extracted ∧
    (isVoiced (stream (i + 1)).fv = true →
      (stateAtCheck options n (LoopState.init b f) stream (i + 1)).countPointsInCurrentSegment
        = n ∧
      (∀ j, i + 2 ≤ j + n → j ≤ i + 1 →
        (stateAtCheck options n (LoopState.init b f) stream (i + 1)).features (j % n) =
          (stream j).fv) ∧
      (mainLoop options n (LoopState.init b f) stream (i + 2)).evaluated =
        (mainLoop options n (LoopState.init b f) stream (i + 1)).evaluated ++
          [(i + 1, verdictAt options n (LoopState.init b f) stream (i + 1))]) := by
  obtain ⟨h1, h2⟩ := reject_step options n (LoopState.init b f) stream i hrej
  refine ⟨h1, h2, ?_⟩
  intro hv
  have inv := loopInv_mainLoop options n stream hn b f (i + 1)
  have c := checkInv_ingest options n stream (i + 1) _ inv
  have hfull : (stateAtCheck options n (LoopState.init b f) stream
      (i + 1)).countPointsInCurrentSegment = n := by
    unfold stateAtCheck
    rw [c.count_eq, if_pos hv, h1]
    ring
  refine ⟨hfull, ?_, mainLoop_succ_evaluated options n (LoopState.init b f) stream (i + 1) hfull⟩
  intro j hj1 hj2
  exact c.ring_fv j (by omega) (by omega)

/-- Scenario D: five voiced frames with pitch 100, 100, 100, 100, 200 Hz and five frames per
segment; the window is rejected at iteration 4, the counter becomes 4 and nothing is emitted. -/
theorem reject_shrinks_by_one_witness :
    1 ≤ 5 ∧
    rejectsAt defaultOptions 5 (LoopState.init (fun _ => "") (fun _ => mkRecord 0 0 0 0 0 0))
      jumpStream 4 ∧
    (mainLoop defaultOptions 5 (LoopState.init (fun _ => "") (fun _ => mkRecord 0 0 0 0 0 0))
      jumpStream (4 + 1)).countPointsInCurrentSegment = ((5 : Nat) : Int) - 1 ∧
    (mainLoop defaultOptions 5 (LoopState.init (fun _ => "") (fun _ => mkRecord 0 0 0 0 0 0))
      jumpStream (4 + 1)).extracted =
      (mainLoop defaultOptions 5 (LoopState.init (fun _ => "") (fun _ => mkRecord 0 0 0 0 0 0))
        jumpStream 4).extracted := by
  have hrej : rejectsAt defaultOptions 5
      (LoopState.init (fun _ => "") (fun _ => mkRecord 0 0 0 0 0 0)) jumpStream 4 := by
    simp [rejectsAt, evaluatesAt, verdictAt, stateAtCheck, mainLoop, loopBody, ingest,
      acceptSegment, recordVerdict, rejectSegment, LoopState.init, jumpStream, mkRecord,
      isVoiced, MINIMUM_INTENSITY, isSegmentSuitableForExtract, scanBuffer, scanPoint,
      Extremes.init, calculatePercentDifference, defaultOptions, THRESHOLD_PITCH, THRESHOLD_F1,
      THRESHOLD_F2, Function.update]
    norm_num
  have h := reject_shrinks_by_one defaultOptions 5 (fun _ => "")
    (fun _ => mkRecord 0 0 0 0 0 0) jumpStream 4 (by decide) hrej
  exact ⟨by decide, hrej, h.1, h.2.1⟩

/-- C6 (as stated) fails: a time step of 0.5 s passes the start-up tests and gives one frame
per segment; a voiced frame whose F1 is 100000 Hz is then a full window that the evaluator
rejects, and the counter after the rejection is 0. -/
theorem reject_can_leave_counter_zero :
    passesStartup halfOptions ∧
    nBufferPointsOf halfOptions = 1 ∧
    rejectsAt halfOptions 1 sampleInit wideStream 0 ∧
    (mainLoop halfOptions 1 sampleInit wideStream 1).countPointsInCurrentSegment = 0 := by
  have hrej : rejectsAt halfOptions 1 sampleInit wideStream 0 := by
    simp [rejectsAt, evaluatesAt, verdictAt, stateAtCheck, mainLoop, loopBody, ingest,
      acceptSegment, recordVerdict, rejectSegment, sampleInit, LoopState.init, wideStream,
      mkRecord, isVoiced, MINIMUM_INTENSITY, isSegmentSuitableForExtract, scanBuffer, scanPoint,
      Extremes.init, calculatePercentDifference, halfOptions, defaultOptions, THRESHOLD_PITCH,
      THRESHOLD_F1, THRESHOLD_F2, Function.update]
    norm_num
  refine ⟨?_, nBufferPointsOf_halfOptions, hrej, ?_⟩
  · rw [passesStartup, nBufferPointsOf_halfOptions]
    norm_num [ensurePositive, halfOptions, defaultOptions, DEFAULT_WINDOW, DEFAULT_MAX_FORMANT,
      THRESHOLD_PITCH, THRESHOLD_F1, THRESHOLD_F2, MAX_BUFFER_SIZE]
  · have := (reject_step halfOptions 1 sampleInit wideStream 0 hrej).1
    simpa using this

/-- C6 (amended): for every configuration that passes the start-up tests and derives at least
two frames per segment, the counter after a rejected full window is the number of frames per
segment less one, hence at least 1. -/
theorem reject_leaves_counter_positive (options : Options) (b : Nat → String)
    (f : Nat → FeatureVector) (stream : Nat → Frame) (i : Nat)
    (_hs : passesStartup options) (h2 : 2 ≤ nBufferPointsOf options)
    (hrej : rejectsAt options (nBufferPointsOf options).toNat (LoopState.init b f) stream i) :
    (mainLoop options (nBufferPointsOf options).toNat (LoopState.init b f) stream
      (i + 1)).countPointsInCurrentSegment = nBufferPointsOf options - 1 ∧
    1 ≤ (mainLoop options (nBufferPointsOf options).toNat (LoopState.init b f) stream
      (i + 1)).countPointsInCurrentSegment := by
  have h := (reject_step options _ (LoopState.init b f) stream i hrej).1
  have e : (((nBufferPointsOf options).toNat : Nat) : Int) = nBufferPointsOf options :=
    Int.toNat_of_nonneg (by omega)
  rw [e] at h
  exact ⟨h, by omega⟩

/-- Scenario D with a time step of 0.1 s (five frames per segment): after the rejection at
iteration 4 the counter is 4. -/
theorem reject_leaves_counter_positive_witness :
    passesStartup tenthOptions ∧ 2 ≤ nBufferPointsOf tenthOptions ∧
    rejectsAt tenthOptions (nBufferPointsOf tenthOptions).toNat
      (LoopState.init (fun _ => "") (fun _ => mkRecord 0 0 0 0 0 0)) jumpStream 4 ∧
    1 ≤ (mainLoop tenthOptions (nBufferPointsOf tenthOptions).toNat
      (LoopState.init (fun _ => "") (fun _ => mkRecord 0 0 0 0 0 0)) jumpStream
      (4 + 1)).countPointsInCurrentSegment := by
  have hs : passesStartup tenthOptions := by
    rw [passesStartup, nBufferPointsOf_tenthOptions]
    norm_num [ensurePositive, tenthOptions, defaultOptions, DEFAULT_WINDOW, DEFAULT_MAX_FORMANT,
      THRESHOLD_PITCH, THRESHOLD_F1, THRESHOLD_F2, MAX_BUFFER_SIZE]
  have h2 : 2 ≤ nBufferPointsOf tenthOptions := by
    rw [nBufferPointsOf_tenthOptions]
    decide
  have hrej : rejectsAt tenthOptions (nBufferPointsOf tenthOptions).toNat
      (LoopState.init (fun _ => "") (fun _ => mkRecord 0 0 0 0 0 0)) jumpStream 4 := by
    rw [nBufferPointsOf_tenthOptions]
    simp [rejectsAt, evaluatesAt, verdictAt, stateAtCheck, mainLoop, loopBody, ingest,
      acceptSegment, recordVerdict, rejectSegment, LoopState.init, jumpStream, mkRecord,
      isVoiced, MINIMUM_INTENSITY, isSegmentSuitableForExtract, scanBuffer, scanPoint,
      Extremes.init, calculatePercentDifference, tenthOptions, defaultOptions, THRESHOLD_PITCH,
      THRESHOLD_F1, THRESHOLD_F2, Function.update]
    norm_num
  exact ⟨hs, h2, hrej,
    (reject_leaves_counter_positive tenthOptions (fun _ => "") (fun _ => mkRecord 0 0 0 0 0 0)
      jumpStream 4 hs h2 hrej).2⟩

/-- C7: for `n >= 1`, whatever the state (so whatever the counter) before it, an iteration
that reads an unvoiced frame ends with the counter at 0 and emits no segment. -/
theorem unvoiced_frame_resets_counter (options : Options) (n line : Nat) (st : LoopState)
    (fr : Frame) (hn : 1 ≤ n) (hu : isVoiced fr.fv = false) :
    (loopBody options n line st fr).countPointsInCurrentSegment = 0 ∧
    (loopBody options n line st fr).extracted = st.extracted := by
  have hc := ingest_count n line st fr
  rw [hu] at hc
  simp only [Bool.false_eq_true, if_false] at hc
  have hnf : (ingest n line st fr).countPointsInCurrentSegment ≠ n := by
    rw [hc]
    omega
  rw [loopBody_of_not_full options n line st fr hnf]
  exact ⟨hc, rfl⟩

/-- A state with four counted points reads frame 3 of the stream of scenario B, which is
unvoiced: the counter drops to 0 and nothing is emitted. -/
theorem unvoiced_frame_resets_counter_witness :
    1 ≤ 5 ∧ isVoiced (gapStream 3).fv = false ∧
    (loopBody defaultOptions 5 3 { sampleInit with countPointsInCurrentSegment := 4 }
      (gapStream 3)).countPointsInCurrentSegment = 0 ∧
    (loopBody defaultOptions 5 3 { sampleInit with countPointsInCurrentSegment := 4 }
      (gapStream 3)).extracted = [] := by
  have hu : isVoiced (gapStream 3).fv = false := by
    simp [isVoiced, gapStream, mkRecord, MINIMUM_INTENSITY]
  have h := unvoiced_frame_resets_counter defaultOptions 5 3
    { sampleInit with countPointsInCurrentSegment := 4 } (gapStream 3) (by decide) hu
  exact ⟨by decide, hu, h.1, h.2⟩

/-- C8 (the code at the failing input): a window of one record whose F1 is 100000 Hz has true
minimum and maximum 100000 in F1, so all three percent differences of the true extremes are 0
and within the default tolerances, yet the evaluator returns false: its running minimum starts
at `0xFFFF` and stays there, which gives the spread of 65535 and 100000, about 52.6 percent. -/
theorem suitable_differs_from_true_extremes :
    IsMinOver (fun i => (wideStream i).fv.Pitch) 1 120 ∧
    IsMaxOver (fun i => (wideStream i).fv.Pitch) 1 120 ∧
    IsMinOver (fun i => (wideStream i).fv.F1) 1 100000 ∧
    IsMaxOver (fun i => (wideStream i).fv.F1) 1 100000 ∧
    IsMinOver (fun i => (wideStream i).fv.F2) 1 1500 ∧
    IsMaxOver (fun i => (wideStream i).fv.F2) 1 1500 ∧
    calculatePercentDifference (120 : Int) (120 : Int) ≤ defaultOptions.PitchThreshold ∧
    calculatePercentDifference (100000 : Int) (100000 : Int) ≤ defaultOptions.F1Threshold ∧
    calculatePercentDifference (1500 : Int) (1500 : Int) ≤ defaultOptions.F2Threshold ∧
    isSegmentSuitableForExtract defaultOptions (fun i => (wideStream i).fv) 1 = false := by
  refine ⟨⟨⟨0, by decide, rfl⟩, ?_⟩, ⟨⟨0, by decide, rfl⟩, ?_⟩, ⟨⟨0, by decide, rfl⟩, ?_⟩,
    ⟨⟨0, by decide, rfl⟩, ?_⟩, ⟨⟨0, by decide, rfl⟩, ?_⟩, ⟨⟨0, by decide, rfl⟩, ?_⟩,
    ?_, ?_, ?_, ?_⟩
  · intro i _; simp [wideStream, mkRecord]
  · intro i _; simp [wideStream, mkRecord]
  · intro i _; simp [wideStream, mkRecord]
  · intro i _; simp [wideStream, mkRecord]
  · intro i _; simp [wideStream, mkRecord]
  · intro i _; simp [wideStream, mkRecord]
  · norm_num [calculatePercentDifference, defaultOptions, THRESHOLD_PITCH]
  · norm_num [calculatePercentDifference, defaultOptions, THRESHOLD_F1]
  · norm_num [calculatePercentDifference, defaultOptions, THRESHOLD_F2]
  · simp [isSegmentSuitableForExtract, scanBuffer, scanPoint, Extremes.init, wideStream,
      mkRecord, calculatePercentDifference, defaultOptions, THRESHOLD_PITCH, THRESHOLD_F1,
      THRESHOLD_F2]
    norm_num

/-- C9 (as stated) fails.  With the default tolerances a window whose records all have F1 = 0
is accepted (both extremes are 0, so the percent difference is 0).  With an F1 tolerance of
1000 percent, which the program accepts, a window with F1 0 and 500 is accepted (the sentinel
1000 does not exceed the tolerance).  With the default tolerances a window with F1 0, -500 and
500 is accepted (the extremes are -500 and 500 and the percent difference is negative). -/
theorem zero_in_window_can_be_accepted :
    (zeroF1Window 0).F1 = 0 ∧
    isSegmentSuitableForExtract defaultOptions zeroF1Window 2 = true ∧
    (halfZeroF1Window 0).F1 = 0 ∧ ensurePositive looseOptions.F1Threshold ∧
    isSegmentSuitableForExtract looseOptions halfZeroF1Window 2 = true ∧
    (signedF1Window 0).F1 = 0 ∧
    isSegmentSuitableForExtract defaultOptions signedF1Window 3 = true := by
  refine ⟨rfl, ?_, rfl, ?_, ?_, rfl, ?_⟩
  · simp [isSegmentSuitableForExtract, scanBuffer, scanPoint, Extremes.init, zeroF1Window,
      mkRecord, calculatePercentDifference, defaultOptions, THRESHOLD_PITCH, THRESHOLD_F1,
      THRESHOLD_F2]
  · norm_num [ensurePositive, looseOptions]
  · simp [isSegmentSuitableForExtract, scanBuffer, scanPoint, Extremes.init, halfZeroF1Window,
      mkRecord, calculatePercentDifference, looseOptions, defaultOptions, THRESHOLD_PITCH,
      THRESHOLD_F1, THRESHOLD_F2]
  · simp [isSegmentSuitableForExtract, scanBuffer, scanPoint, Extremes.init, signedF1Window,
      mkRecord, calculatePercentDifference, defaultOptions, THRESHOLD_PITCH, THRESHOLD_F1,
      THRESHOLD_F2]
    norm_num

/-- C9 (amended): if in a window of `n` records one of the fields pitch, F1, F2 is 0 in some
record and not 0 in some record, its values are not of both signs (none is negative, or none
is positive), and the tolerance of that field is below 1000 percent, then the evaluator
returns false. -/
theorem zero_among_one_sign_rejected (options : Options) (f : Nat → FeatureVector) (n : Nat)
    (h : (ZeroAmongOneSign (fun i => (f i).Pitch) n ∧ options.PitchThreshold < 1000) ∨
      (ZeroAmongOneSign (fun i => (f i).F1) n ∧ options.F1Threshold < 1000) ∨
      (ZeroAmongOneSign (fun i => (f i).F2) n ∧ options.F2Threshold < 1000)) :
    isSegmentSuitableForExtract options f n = false := by
  rw [← Bool.not_eq_true, isSegmentSuitableForExtract_iff]
  rintro ⟨hp, h1, h2⟩
  rcases h with ⟨hz, ht⟩ | ⟨hz, ht⟩ | ⟨hz, ht⟩
  · rw [zeroAmongOneSign_sentinel _ n hz] at hp
    exact absurd (lt_of_le_of_lt hp ht) (lt_irrefl _)
  · rw [zeroAmongOneSign_sentinel _ n hz] at h1
    exact absurd (lt_of_le_of_lt h1 ht) (lt_irrefl _)
  · rw [zeroAmongOneSign_sentinel _ n hz] at h2
    exact absurd (lt_of_le_of_lt h2 ht) (lt_irrefl _)

/-- A window with F1 0 and 500, and a window with F1 0 and -500, are both rejected under the
default tolerances. -/
theorem zero_among_one_sign_rejected_witness :
    (ZeroAmongOneSign (fun i => (halfZeroF1Window i).F1) 2 ∧
      defaultOptions.F1Threshold < 1000) ∧
    isSegmentSuitableForExtract defaultOptions halfZeroF1Window 2 = false ∧
    ZeroAmongOneSign (fun i => (negativeZeroF1Window i).F1) 2 ∧
    isSegmentSuitableForExtract defaultOptions negativeZeroF1Window 2 = false := by
  have hz : ZeroAmongOneSign (fun i => (halfZeroF1Window i).F1) 2 :=
    ⟨⟨0, by decide, rfl⟩, ⟨1, by decide, by decide⟩,
      Or.inl fun i _ => by simp only [halfZeroF1Window, mkRecord]; split <;> decide⟩
  have hn : ZeroAmongOneSign (fun i => (negativeZeroF1Window i).F1) 2 :=
    ⟨⟨0, by decide, rfl⟩, ⟨1, by decide, by decide⟩,
      Or.inr fun i _ => by simp only [negativeZeroF1Window, mkRecord]; split <;> decide⟩
  have ht : defaultOptions.F1Threshold < 1000 := by
    norm_num [defaultOptions, THRESHOLD_F1]
  exact ⟨⟨hz, ht⟩,
    zero_among_one_sign_rejected defaultOptions halfZeroF1Window 2 (Or.inr (Or.inl ⟨hz, ht⟩)),
    hn,
    zero_among_one_sign_rejected defaultOptions negativeZeroF1Window 2
      (Or.inr (Or.inl ⟨hn, ht⟩))⟩

/-- C10: in exact arithmetic `calculatePercentDifference a b` is 0 when `a = b`, is 1000 when
`a` and `b` differ and one of them is 0, and is `100 * (max a b / min a b - 1)` otherwise. -/
theorem calculatePercentDifference_cases (a b : ℚ) :
    (a = b → calculatePercentDifference a b = 0) ∧
    (a ≠ b → (a = 0 ∨ b = 0) → calculatePercentDifference a b = 1000) ∧
    (a ≠ b → a ≠ 0 → b ≠ 0 →
      calculatePercentDifference a b = 100 * (max a b / min a b - 1)) := by
  refine ⟨fun h => by simp [calculatePercentDifference, h],
    fun h h0 => by simp [calculatePercentDifference, h, h0], fun h ha hb => ?_⟩
  simp only [calculatePercentDifference, h, ha, hb, if_false, or_self, gt_iff_lt]
  rcases lt_or_gt_of_ne h with hlt | hgt
  · rw [if_neg (not_lt.mpr hlt.le), max_eq_right hlt.le, min_eq_left hlt.le]
  · rw [if_pos hgt, max_eq_left hgt.le, min_eq_right hgt.le]

/-- The three cases at 120 and 120, at 0 and 500, and at 200 and 100 (spread 100 percent). -/
theorem calculatePercentDifference_cases_witness :
    calculatePercentDifference 120 120 = 0 ∧
    calculatePercentDifference 0 500 = 1000 ∧
    calculatePercentDifference 200 100 = 100 * (max 200 100 / min 200 100 - 1) :=
  ⟨(calculatePercentDifference_cases 120 120).1 rfl,
    (calculatePercentDifference_cases 0 500).2.1 (by norm_num) (Or.inl rfl),
    (calculatePercentDifference_cases 200 100).2.2 (by norm_num) (by norm_num) (by norm_num)⟩

/-! ## Further claims: percent difference, voicing, start-up -/

/-- C11 (as stated) fails: `calculatePercentDifference 0 0` is 0, not the sentinel 1000 (the
test `a == b` of line 388 comes before the zero guard). -/
theorem calculatePercentDifference_zero_zero_not_sentinel :
    calculatePercentDifference 0 0 = 0 ∧ calculatePercentDifference 0 0 ≠ 1000 := by
  constructor <;> norm_num [calculatePercentDifference]

/-- C11 (amended): for every `a` other than 0, `calculatePercentDifference a 0` and
`calculatePercentDifference 0 a` are both the sentinel 1000. -/
theorem calculatePercentDifference_zero_sentinel (a : ℚ) (ha : a ≠ 0) :
    calculatePercentDifference a 0 = 1000 ∧ calculatePercentDifference 0 a = 1000 := by
  constructor
  · simp [calculatePercentDifference, ha]
  · simp [calculatePercentDifference, ha, Ne.symm ha]

/-- The sentinel at 500 and 0. -/
theorem calculatePercentDifference_zero_sentinel_witness :
    (500 : ℚ) ≠ 0 ∧ calculatePercentDifference 500 0 = 1000 ∧
    calculatePercentDifference 0 500 = 1000 :=
  ⟨by norm_num, calculatePercentDifference_zero_sentinel 500 (by norm_num)⟩

/-- C12: `calculatePercentDifference a b = calculatePercentDifference b a` for all `a`, `b`. -/
theorem calculatePercentDifference_symmetric (a b : ℚ) :
    calculatePercentDifference a b = calculatePercentDifference b a := by
  by_cases h : a = b
  · rw [h]
  · have h2 : ¬ b = a := fun e => h e.symm
    by_cases h0 : a = 0 ∨ b = 0
    · have h0s : b = 0 ∨ a = 0 := h0.symm
      simp only [calculatePercentDifference, h, h2, if_false, h0, h0s, if_true]
    · have h0s : ¬ (b = 0 ∨ a = 0) := fun e => h0 e.symm
      simp only [calculatePercentDifference, h, h2, if_false, h0, h0s, gt_iff_lt]
      rcases lt_or_gt_of_ne h with hlt | hgt
      · rw [if_neg (not_lt.mpr hlt.le), if_pos hlt]
      · rw [if_pos hgt, if_neg (not_lt.mpr (le_of_lt hgt))]

/-- C13: `isVoiced fv` is true exactly when `fv.Intensity >= 55`, `fv.Pitch != 0` and
`fv.F3 != 0`; so for non-zero pitch and F3 it is true exactly when the intensity is at least
`MINIMUM_INTENSITY`; and two records with the same intensity, pitch and F3 get the same answer
whatever their time, F1, F2 and cepstral fields. -/
theorem isVoiced_iff (fv : FeatureVector) :
    (isVoiced fv = true ↔ 55 ≤ fv.Intensity ∧ fv.Pitch ≠ 0 ∧ fv.F3 ≠ 0) ∧
    (fv.Pitch ≠ 0 → fv.F3 ≠ 0 → (isVoiced fv = true ↔ MINIMUM_INTENSITY ≤ fv.Intensity)) ∧
    (∀ other : FeatureVector, other.Intensity = fv.Intensity → other.Pitch = fv.Pitch →
      other.F3 = fv.F3 → isVoiced other = isVoiced fv) := by
  have main : ∀ r : FeatureVector,
      (isVoiced r = true ↔ 55 ≤ r.Intensity ∧ r.Pitch ≠ 0 ∧ r.F3 ≠ 0) := by
    intro r
    unfold isVoiced MINIMUM_INTENSITY
    by_cases h1 : r.Intensity < 55
    · simp [h1]
    · by_cases h2 : r.Pitch = 0
      · simp [h1, h2]
      · by_cases h3 : r.F3 = 0
        · simp [h1, h2, h3]
        · simp only [h1, h2, h3, if_false, ne_eq, not_false_eq_true, and_true, true_iff]
          omega
  refine ⟨main fv, ?_, ?_⟩
  · intro hp hf
    rw [main fv]
    unfold MINIMUM_INTENSITY
    exact ⟨fun h => h.1, fun h => ⟨h, hp, hf⟩⟩
  · intro other hi hp hf
    rw [Bool.eq_iff_iff, main other, main fv, hi, hp, hf]

/-- Frame 0 of the steady stream (intensity 60, pitch 120, F3 2500) is voiced, and so is the
record that differs from it in time, F1 and F2 only. -/
theorem isVoiced_iff_witness :
    isVoiced (steadyStream 0).fv = true ∧
    isVoiced (mkRecord 999 60 120 1 2 2500) = isVoiced (steadyStream 0).fv :=
  ⟨(isVoiced_iff (steadyStream 0).fv).1.mpr ⟨by decide, by decide, by decide⟩,
    (isVoiced_iff (steadyStream 0).fv).2.2 (mkRecord 999 60 120 1 2 2500) rfl rfl rfl⟩

theorem nBufferPointsOf_twoOptions : nBufferPointsOf twoOptions = 0 := by
  have h : (1 / 2 + (EXTRACT_MS / 1000) / twoOptions.TimeStep : ℚ) = 3 / 4 := by
    norm_num [EXTRACT_MS, twoOptions]
  unfold nBufferPointsOf truncToInt
  rw [h, if_pos (by norm_num), Int.floor_eq_iff]
  norm_num

/-- For a positive time step the derived number of frames per segment is the floor of
`1/2 + (1/2) / timeStep`; it is never negative, and it is at least 1 exactly when the time step
is at most one second. -/
theorem nBufferPointsOf_pos_iff (options : Options) (h : 0 < options.TimeStep) :
    nBufferPointsOf options = ⌊(1 / 2 + (1 / 2) / options.TimeStep : ℚ)⌋ ∧
    0 ≤ nBufferPointsOf options ∧
    (1 ≤ nBufferPointsOf options ↔ options.TimeStep ≤ 1) := by
  have hx : (0 : ℚ) ≤ 1 / 2 + (EXTRACT_MS / 1000) / options.TimeStep := by
    have : (0 : ℚ) ≤ (EXTRACT_MS / 1000) / options.TimeStep :=
      div_nonneg (by norm_num [EXTRACT_MS]) h.le
    linarith
  have e : nBufferPointsOf options = ⌊(1 / 2 + (1 / 2) / options.TimeStep : ℚ)⌋ := by
    unfold nBufferPointsOf truncToInt
    rw [if_pos hx]
    norm_num [EXTRACT_MS]
  refine ⟨e, ?_, ?_⟩
  · rw [e]
    apply Int.floor_nonneg.mpr
    have : (0 : ℚ) ≤ (1 / 2) / options.TimeStep := div_nonneg (by norm_num) h.le
    linarith
  · rw [e, Int.le_floor]
    constructor
    · intro h1
      have h2 : (1 / 2 : ℚ) ≤ (1 / 2) / options.TimeStep := by
        push_cast at h1
        linarith
      rw [le_div_iff₀ h] at h2
      linarith
    · intro h1
      have h2 : (1 / 2 : ℚ) ≤ (1 / 2) / options.TimeStep := by
        rw [le_div_iff₀ h]
        linarith
      push_cast
      linarith

/-- C17 (the code at the failing input): a time step of 2 s passes the start-up tests, the
derived number of frames per segment is 0, and the ring position `line % nBufferPoints` of the
first iteration has no value (division by zero). -/
theorem startup_admits_zero_frames_per_segment :
    passesStartup twoOptions ∧
    nBufferPointsOf twoOptions = 0 ∧
    ringPosition 0 (nBufferPointsOf twoOptions) = none := by
  refine ⟨?_, nBufferPointsOf_twoOptions, ?_⟩
  · rw [passesStartup, nBufferPointsOf_twoOptions]
    norm_num [ensurePositive, twoOptions, defaultOptions, DEFAULT_WINDOW, DEFAULT_MAX_FORMANT,
      THRESHOLD_PITCH, THRESHOLD_F1, THRESHOLD_F2, MAX_BUFFER_SIZE]
  · rw [nBufferPointsOf_twoOptions]
    rfl

/-! ## The ring and the window: auxiliary facts -/

/-- Every ring slot is the position of one frame of the window that starts at `base`. -/
theorem slot_of_window (n base p : Nat) (hp : p < n) :
    ∃ t, t < n ∧ (base + t) % n = p := by
  have hd : n * (base / n) + base % n = base := Nat.div_add_mod base n
  have hr : base % n < n := Nat.mod_lt base (by omega)
  by_cases h : base % n ≤ p
  · refine ⟨p - base % n, by omega, ?_⟩
    have e : base + (p - base % n) = p + n * (base / n) := by omega
    rw [e, Nat.add_mul_mod_self_left, Nat.mod_eq_of_lt hp]
  · refine ⟨p + n - base % n, by omega, ?_⟩
    have e : base + (p + n - base % n) = p + n * (base / n + 1) := by
      rw [Nat.mul_succ]
      omega
    rw [e, Nat.add_mul_mod_self_left, Nat.mod_eq_of_lt hp]

theorem runMin_eq_of_same_values (g h : Nat → Int) (n : Nat)
    (h1 : ∀ p, p < n → ∃ t, t < n ∧ h t = g p) (h2 : ∀ t, t < n → ∃ p, p < n ∧ g p = h t) :
    runMin g n = runMin h n := by
  apply le_antisymm
  · rcases runMin_mem h n with e | ⟨t, ht, e⟩
    · rw [e]; exact runMin_le_init g n
    · obtain ⟨p, hp, e2⟩ := h2 t ht
      rw [← e, ← e2]
      exact runMin_le g n p hp
  · rcases runMin_mem g n with e | ⟨p, hp, e⟩
    · rw [e]; exact runMin_le_init h n
    · obtain ⟨t, ht, e2⟩ := h1 p hp
      rw [← e, ← e2]
      exact runMin_le h n t ht

theorem runMax_eq_of_same_values (g h : Nat → Int) (n : Nat)
    (h1 : ∀ p, p < n → ∃ t, t < n ∧ h t = g p) (h2 : ∀ t, t < n → ∃ p, p < n ∧ g p = h t) :
    runMax g n = runMax h n := by
  apply le_antisymm
  · rcases runMax_mem g n with e | ⟨p, hp, e⟩
    · rw [e]; exact runMax_ge_init h n
    · obtain ⟨t, ht, e2⟩ := h1 p hp
      rw [← e, ← e2]
      exact le_runMax h n t ht
  · rcases runMax_mem h n with e | ⟨t, ht, e⟩
    · rw [e]; exact runMax_ge_init g n
    · obtain ⟨p, hp, e2⟩ := h2 t ht
      rw [← e, ← e2]
      exact le_runMax g n p hp

/-- The verdict of the evaluator does not depend on the order of the records. -/
theorem isSegmentSuitableForExtract_of_same_records (options : Options)
    (f g : Nat → FeatureVector) (n : Nat)
    (h1 : ∀ p, p < n → ∃ t, t < n ∧ g t = f p) (h2 : ∀ t, t < n → ∃ p, p < n ∧ f p = g t) :
    isSegmentSuitableForExtract options f n = isSegmentSuitableForExtract options g n := by
  have a1 : ∀ sel : FeatureVector → Int, ∀ p, p < n → ∃ t, t < n ∧ sel (g t) = sel (f p) :=
    fun sel p hp => by
      obtain ⟨t, ht, e⟩ := h1 p hp
      exact ⟨t, ht, congrArg sel e⟩
  have a2 : ∀ sel : FeatureVector → Int, ∀ t, t < n → ∃ p, p < n ∧ sel (f p) = sel (g t) :=
    fun sel t ht => by
      obtain ⟨p, hp, e⟩ := h2 t ht
      exact ⟨p, hp, congrArg sel e⟩
  rw [Bool.eq_iff_iff, isSegmentSuitableForExtract_iff, isSegmentSuitableForExtract_iff,
    runMin_eq_of_same_values _ _ n (a1 FeatureVector.Pitch) (a2 FeatureVector.Pitch),
    runMax_eq_of_same_values _ _ n (a1 FeatureVector.Pitch) (a2 FeatureVector.Pitch),
    runMin_eq_of_same_values _ _ n (a1 FeatureVector.F1) (a2 FeatureVector.F1),
    runMax_eq_of_same_values _ _ n (a1 FeatureVector.F1) (a2 FeatureVector.F1),
    runMin_eq_of_same_values _ _ n (a1 FeatureVector.F2) (a2 FeatureVector.F2),
    runMax_eq_of_same_values _ _ n (a1 FeatureVector.F2) (a2 FeatureVector.F2)]

/-- Once `n` frames were read, the verdict over the ring is the verdict over the last `n`
frames in stream order. -/
theorem verdictAt_eq_window (options : Options) (n : Nat) (b : Nat → String)
    (f : Nat → FeatureVector) (stream : Nat → Frame) (hn : 1 ≤ n) (i : Nat) (hk : n ≤ i + 1) :
    verdictAt options n (LoopState.init b f) stream i =
      isSegmentSuitableForExtract options (fun t => (stream (i + 1 - n + t)).fv) n := by
  have inv := loopInv_mainLoop options n stream hn b f i
  have c := checkInv_ingest options n stream i _ inv
  unfold verdictAt stateAtCheck
  apply isSegmentSuitableForExtract_of_same_records
  · intro p hp
    obtain ⟨t, ht, e⟩ := slot_of_window n (i + 1 - n) p hp
    refine ⟨t, ht, ?_⟩
    rw [← e]
    exact (c.ring_fv (i + 1 - n + t) (by omega) (by omega)).symm
  · intro t ht
    exact ⟨(i + 1 - n + t) % n, Nat.mod_lt _ (by omega),
      c.ring_fv (i + 1 - n + t) (by omega) (by omega)⟩

/-- The counter characterised: after `k` iterations it is at least `m` exactly when `m < n`,
`m <= k`, and each of the last `m` frames was voiced and did not end an accepted window. -/
theorem count_ge_iff (options : Options) (n : Nat) (b : Nat → String)
    (f : Nat → FeatureVector) (stream : Nat → Frame) (hn : 1 ≤ n) (k : Nat) :
    ∀ m : Nat,
      ((m : Int) ≤ (mainLoop options n (LoopState.init b f) stream k).countPointsInCurrentSegment
        ↔ m + 1 ≤ n ∧ m ≤ k ∧ ∀ j, j < k → k ≤ j + m →
          (isVoiced (stream j).fv = true ∧
            ¬ acceptsAt options n (LoopState.init b f) stream j)) := by
  induction k with
  | zero =>
    intro m
    have h0 : (mainLoop options n (LoopState.init b f) stream 0).countPointsInCurrentSegment
        = 0 := rfl
    rw [h0]
    constructor
    · intro h
      exact ⟨by omega, by omega, fun j hj => absurd hj (Nat.not_lt_zero j)⟩
    · intro h
      have := h.2.1
      omega
  | succ k ih =>
    intro m
    have inv := loopInv_mainLoop options n stream hn b f k
    have c := checkInv_ingest options n stream k _ inv
    have hce := c.count_eq
    have hcn := c.count_le_n
    have h1 := inv.count_nonneg
    have h2 := inv.count_le
    by_cases hfull : evaluatesAt options n (LoopState.init b f) stream k
    · have hfull1 : (ingest n k (mainLoop options n (LoopState.init b f) stream k)
          (stream k)).countPointsInCurrentSegment = n := hfull
      have hv : isVoiced (stream k).fv = true := by
        by_contra hv
        rw [if_neg hv] at hce
        omega
      rw [if_pos hv] at hce
      cases hver : verdictAt options n (LoopState.init b f) stream k
      · have hcl : ¬ acceptsAt options n (LoopState.init b f) stream k := by
          intro h
          have := h.2
          rw [hver] at this
          exact Bool.noConfusion this
        rw [(reject_step options n (LoopState.init b f) stream k ⟨hfull, hver⟩).1]
        constructor
        · intro hm
          refine ⟨by omega, by omega, ?_⟩
          intro j hj hle
          rcases Nat.lt_succ_iff_lt_or_eq.mp hj with hlt | heq
          · exact ((ih (m - 1)).mp (by omega)).2.2 j hlt (by omega)
          · rw [heq]; exact ⟨hv, hcl⟩
        · intro h
          have := h.1
          omega
      · have hacc : acceptsAt options n (LoopState.init b f) stream k := ⟨hfull, hver⟩
        have h0 : (mainLoop options n (LoopState.init b f) stream
            (k + 1)).countPointsInCurrentSegment = 0 := by
          rw [mainLoop_succ_of_accept options n (LoopState.init b f) stream k hacc]
          rfl
        rw [h0]
        constructor
        · intro hm
          exact ⟨by omega, by omega, fun j hj hle => by omega⟩
        · intro h
          by_contra hm
          exact (h.2.2 k (Nat.lt_succ_self k) (by omega)).2 hacc
    · have hcl : ¬ acceptsAt options n (LoopState.init b f) stream k := fun h => hfull h.1
      have hne : (ingest n k (mainLoop options n (LoopState.init b f) stream k)
          (stream k)).countPointsInCurrentSegment ≠ n := hfull
      rw [mainLoop_succ_of_not_full options n (LoopState.init b f) stream k hfull]
      unfold stateAtCheck
      by_cases hv : isVoiced (stream k).fv = true
      · rw [if_pos hv] at hce
        rw [hce]
        constructor
        · intro hm
          refine ⟨by omega, by omega, ?_⟩
          intro j hj hle
          rcases Nat.lt_succ_iff_lt_or_eq.mp hj with hlt | heq
          · exact ((ih (m - 1)).mp (by omega)).2.2 j hlt (by omega)
          · rw [heq]; exact ⟨hv, hcl⟩
        · intro h
          by_cases hm0 : m = 0
          · omega
          · have := (ih (m - 1)).mpr ⟨by omega, by omega, fun j hj hle =>
              h.2.2 j (Nat.lt_succ_of_lt hj) (by omega)⟩
            omega
      · rw [if_neg hv] at hce
        rw [hce]
        constructor
        · intro hm
          exact ⟨by omega, by omega, fun j hj hle => by omega⟩
        · intro h
          by_contra hm
          exact hv (h.2.2 k (Nat.lt_succ_self k) (by omega)).1

/-- An iteration emits a segment exactly when it accepts its window. -/
theorem emitsAt_iff_acceptsAt (options : Options) (n : Nat) (b : Nat → String)
    (f : Nat → FeatureVector) (stream : Nat → Frame) (hn : 1 ≤ n) (i : Nat) :
    emitsAt options n (LoopState.init b f) stream i ↔
      acceptsAt options n (LoopState.init b f) stream i := by
  constructor
  · rintro ⟨seg, hmem, hline⟩
    by_contra hacc
    have inv := loopInv_mainLoop options n stream hn b f i
    have hsame : (mainLoop options n (LoopState.init b f) stream (i + 1)).extracted =
        (mainLoop options n (LoopState.init b f) stream i).extracted := by
      by_cases hfull : evaluatesAt options n (LoopState.init b f) stream i
      · cases hver : verdictAt options n (LoopState.init b f) stream i
        · exact (reject_step options n (LoopState.init b f) stream i ⟨hfull, hver⟩).2
        · exact absurd ⟨hfull, hver⟩ hacc
      · rw [mainLoop_succ_of_not_full options n (LoopState.init b f) stream i hfull]
        rfl
    rw [hsame] at hmem
    have h1 := inv.seg_gap seg hmem
    have h2 := inv.count_nonneg
    omega
  · intro hacc
    refine ⟨expectedSegment options n stream i, ?_, rfl⟩
    rw [(accept_step options n b f stream hn i hacc).2.2.2]
    exact List.mem_append_right _ (List.mem_singleton_self _)

/-- Two accepting iterations are at least `n` apart. -/
theorem acceptsAt_separated (options : Options) (n : Nat) (b : Nat → String)
    (f : Nat → FeatureVector) (stream : Nat → Frame) (hn : 1 ≤ n) (j i : Nat) (hji : j < i)
    (hj : acceptsAt options n (LoopState.init b f) stream j)
    (hi : acceptsAt options n (LoopState.init b f) stream i) : j + n ≤ i := by
  have hmem : expectedSegment options n stream j ∈
      (mainLoop options n (LoopState.init b f) stream (j + 1)).extracted := by
    rw [(accept_step options n b f stream hn j hj).2.2.2]
    exact List.mem_append_right _ (List.mem_singleton_self _)
  have hmem2 := extracted_mono options n (LoopState.init b f) stream _ (j + 1)
    (i - (j + 1)) hmem
  have e : j + 1 + (i - (j + 1)) = i := by omega
  rw [e] at hmem2
  have inv2 := loopInv_mainLoop options n stream hn b f i
  have c2 := checkInv_ingest options n stream i _ inv2
  have hgap := inv2.seg_gap _ hmem2
  have hfull : (ingest n i (mainLoop options n (LoopState.init b f) stream i)
      (stream i)).countPointsInCurrentSegment = n := hi.1
  have hce := c2.count_eq
  have hl : ((expectedSegment options n stream j).line : Int) = j := rfl
  rw [hl] at hgap
  by_cases hv : isVoiced (stream i).fv = true
  · rw [if_pos hv] at hce
    omega
  · rw [if_neg hv] at hce
    omega

/-- The evaluator is called at iteration `i` exactly when `n` frames were read, the last `n`
frames are voiced, and none of the `n - 1` frames before frame `i` ended an accepted window. -/
theorem evaluatesAt_iff (options : Options) (n : Nat) (b : Nat → String)
    (f : Nat → FeatureVector) (stream : Nat → Frame) (hn : 1 ≤ n) (i : Nat) :
    evaluatesAt options n (LoopState.init b f) stream i ↔
      (n ≤ i + 1 ∧ ∀ j, i + 1 ≤ j + n → j ≤ i → isVoiced (stream j).fv = true) ∧
      (∀ j, i + 1 ≤ j + n → j < i → ¬ acceptsAt options n (LoopState.init b f) stream j) := by
  have inv := loopInv_mainLoop options n stream hn b f i
  have c := checkInv_ingest options n stream i _ inv
  have hce := c.count_eq
  have hlt := inv.count_lt
  have key := count_ge_iff options n b f stream hn i (n - 1)
  constructor
  · intro hfull
    have hfull1 : (ingest n i (mainLoop options n (LoopState.init b f) stream i)
        (stream i)).countPointsInCurrentSegment = n := hfull
    have hv : isVoiced (stream i).fv = true := by
      by_contra hv
      rw [if_neg hv] at hce
      omega
    rw [if_pos hv] at hce
    obtain ⟨-, hk, hcl⟩ := key.mp (by omega)
    refine ⟨⟨by omega, ?_⟩, ?_⟩
    · intro j h1 h2
      rcases Nat.lt_or_eq_of_le h2 with hl | he
      · exact (hcl j hl (by omega)).1
      · rw [he]; exact hv
    · intro j h1 h2
      exact (hcl j h2 (by omega)).2
  · rintro ⟨⟨hk, hvo⟩, hno⟩
    have hge := key.mpr ⟨by omega, by omega, fun j hj hle =>
      ⟨hvo j (by omega) (by omega), hno j (by omega) hj⟩⟩
    show (ingest n i (mainLoop options n (LoopState.init b f) stream i)
      (stream i)).countPointsInCurrentSegment = n
    rw [hce, if_pos (hvo i (by omega) (le_refl i))]
    omega

/-! ## Further claims: the reading loop -/

/-- C18: for `n >= 1`, whenever iteration `i` calls the evaluator, at least `n` frames were
read, the ring slots `0 .. n - 1` hold exactly frames `i + 1 - n .. i` (frame `j` in slot
`j % n`, and every slot holds one of these frames), and the verdict computed over the ring in
storage order, which is the one noted in the trace, equals the verdict of the evaluator on
those `n` frames taken in stream order. -/
theorem evaluator_sees_last_n_frames (options : Options) (n : Nat) (b : Nat → String)
    (f : Nat → FeatureVector) (stream : Nat → Frame) (i : Nat) (hn : 1 ≤ n)
    (hev : evaluatesAt options n (LoopState.init b f) stream i) :
    n ≤ i + 1 ∧
    (∀ j, i + 1 ≤ j + n → j ≤ i →
      (stateAtCheck options n (LoopState.init b f) stream i).features (j % n) =
        (stream j).fv) ∧
    (∀ p, p < n → ∃ j, i + 1 ≤ j + n ∧ j ≤ i ∧ j % n = p) ∧
    verdictAt options n (LoopState.init b f) stream i =
      isSegmentSuitableForExtract options (fun t => (stream (i + 1 - n + t)).fv) n ∧
    (mainLoop options n (LoopState.init b f) stream (i + 1)).evaluated =
      (mainLoop options n (LoopState.init b f) stream i).evaluated ++
        [(i, isSegmentSuitableForExtract options (fun t => (stream (i + 1 - n + t)).fv) n)] := by
  have inv := loopInv_mainLoop options n stream hn b f i
  have c := checkInv_ingest options n stream i _ inv
  have hk : n ≤ i + 1 := by
    have h1 := c.count_le
    have h2 : (ingest n i (mainLoop options n (LoopState.init b f) stream i)
      (stream i)).countPointsInCurrentSegment = n := hev
    omega
  have hver := verdictAt_eq_window options n b f stream hn i hk
  refine ⟨hk, fun j h1 h2 => c.ring_fv j (by omega) (by omega), ?_, hver, ?_⟩
  · intro p hp
    obtain ⟨t, ht, e⟩ := slot_of_window n (i + 1 - n) p hp
    exact ⟨i + 1 - n + t, by omega, by omega, e⟩
  · rw [mainLoop_succ_evaluated options n (LoopState.init b f) stream i hev, hver]

/-- Scenario D continued: after the rejection at iteration 4, iteration 5 evaluates the ring,
whose slot 0 now holds frame 5 and whose slots 1 to 4 hold frames 1 to 4; the verdict is the
one on frames 1 to 5 in stream order. -/
theorem evaluator_sees_last_n_frames_witness :
    1 ≤ 5 ∧
    evaluatesAt defaultOptions 5 (LoopState.init (fun _ => "") (fun _ => mkRecord 0 0 0 0 0 0))
      jumpStream 5 ∧
    (stateAtCheck defaultOptions 5 (LoopState.init (fun _ => "") (fun _ => mkRecord 0 0 0 0 0 0))
      jumpStream 5).features (5 % 5) = (jumpStream 5).fv ∧
    verdictAt defaultOptions 5 (LoopState.init (fun _ => "") (fun _ => mkRecord 0 0 0 0 0 0))
      jumpStream 5 =
      isSegmentSuitableForExtract defaultOptions (fun t => (jumpStream (5 + 1 - 5 + t)).fv) 5 := by
  have hev : evaluatesAt defaultOptions 5
      (LoopState.init (fun _ => "") (fun _ => mkRecord 0 0 0 0 0 0)) jumpStream 5 := by
    simp [evaluatesAt, verdictAt, stateAtCheck, mainLoop, loopBody, ingest,
      acceptSegment, recordVerdict, rejectSegment, LoopState.init, jumpStream, mkRecord,
      isVoiced, MINIMUM_INTENSITY, isSegmentSuitableForExtract, scanBuffer, scanPoint,
      Extremes.init, calculatePercentDifference, defaultOptions, THRESHOLD_PITCH, THRESHOLD_F1,
      THRESHOLD_F2, Function.update]
    norm_num
  have h := evaluator_sees_last_n_frames defaultOptions 5 (fun _ => "")
    (fun _ => mkRecord 0 0 0 0 0 0) jumpStream 5 (by decide) hev
  exact ⟨by decide, hev, h.2.1 5 (by decide) (by decide), h.2.2.2.1⟩

/-- C19: for `n >= 1`, in every iteration `k` the counter is within `0 .. n` after the
unconditional increment of line 281 and after the voicing test of lines 284-287, and within
`0 .. n - 1` at the end of the iteration; the value after the voicing test is the increment
capped at `n`, and the counter of the code after `k` iterations is the `activeCount` of the
specification. -/
theorem counter_within_bounds_and_matches_spec (options : Options) (n : Nat) (b : Nat → String)
    (f : Nat → FeatureVector) (stream : Nat → Frame) (k : Nat) (hn : 1 ≤ n) :
    (0 ≤ (mainLoop options n (LoopState.init b f) stream k).countPointsInCurrentSegment + 1 ∧
      (mainLoop options n (LoopState.init b f) stream k).countPointsInCurrentSegment + 1 ≤ n) ∧
    (0 ≤ (stateAtCheck options n (LoopState.init b f) stream k).countPointsInCurrentSegment ∧
      (stateAtCheck options n (LoopState.init b f) stream k).countPointsInCurrentSegment ≤ n) ∧
    (0 ≤ (mainLoop options n (LoopState.init b f) stream (k + 1)).countPointsInCurrentSegment ∧
      (mainLoop options n (LoopState.init b f) stream (k + 1)).countPointsInCurrentSegment
        ≤ (n : Int) - 1) ∧
    (stateAtCheck options n (LoopState.init b f) stream k).countPointsInCurrentSegment =
      (if isVoiced (stream k).fv = true then
        min ((mainLoop options n (LoopState.init b f) stream k).countPointsInCurrentSegment + 1) n
      else 0) ∧
    (mainLoop options n (LoopState.init b f) stream k).countPointsInCurrentSegment =
      specActiveCount options n stream k := by
  have inv := loopInv_mainLoop options n stream hn b f k
  have inv1 := loopInv_mainLoop options n stream hn b f (k + 1)
  have c := checkInv_ingest options n stream k _ inv
  have h1 := inv.count_nonneg
  have h2 := inv.count_lt
  have h3 := inv1.count_nonneg
  have h4 := inv1.count_lt
  have hcap : ∀ t, (stateAtCheck options n (LoopState.init b f) stream
      t).countPointsInCurrentSegment =
      (if isVoiced (stream t).fv = true then
        min ((mainLoop options n (LoopState.init b f) stream t).countPointsInCurrentSegment + 1) n
      else 0) := by
    intro t
    have invt := loopInv_mainLoop options n stream hn b f t
    have ct := checkInv_ingest options n stream t _ invt
    have := invt.count_lt
    unfold stateAtCheck
    rw [ct.count_eq, min_eq_left (by omega)]
  refine ⟨⟨by omega, by omega⟩, ⟨c.count_nonneg, c.count_le_n⟩, ⟨h3, by omega⟩, hcap k, ?_⟩
  clear inv inv1 c h1 h2 h3 h4
  induction k with
  | zero => rfl
  | succ k ih =>
    have inv := loopInv_mainLoop options n stream hn b f k
    have c := checkInv_ingest options n stream k _ inv
    have hck := hcap k
    rw [ih] at hck
    simp only [specActiveCount]
    rw [← hck]
    by_cases hfull : evaluatesAt options n (LoopState.init b f) stream k
    · have hfull1 : (stateAtCheck options n (LoopState.init b f) stream
          k).countPointsInCurrentSegment = n := hfull
      have hk : n ≤ k + 1 := by
        have h1 := c.count_le
        have h2 : (ingest n k (mainLoop options n (LoopState.init b f) stream k)
          (stream k)).countPointsInCurrentSegment = n := hfull
        omega
      rw [if_pos hfull1, ← verdictAt_eq_window options n b f stream hn k hk]
      cases hver : verdictAt options n (LoopState.init b f) stream k
      · rw [(reject_step options n (LoopState.init b f) stream k ⟨hfull, hver⟩).1, hfull1]
        simp
      · rw [mainLoop_succ_of_accept options n (LoopState.init b f) stream k ⟨hfull, hver⟩]
        simp [acceptSegment]
    · have hne : ¬ (stateAtCheck options n (LoopState.init b f) stream
          k).countPointsInCurrentSegment = n := hfull
      rw [if_neg hne, mainLoop_succ_of_not_full options n (LoopState.init b f) stream k hfull]

/-- Scenario D: after the five frames (rejected at iteration 4) the counter of the code is the
`activeCount` of the specification, and at most 4. -/
theorem counter_within_bounds_and_matches_spec_witness :
    1 ≤ 5 ∧
    (mainLoop defaultOptions 5 (LoopState.init (fun _ => "") (fun _ => mkRecord 0 0 0 0 0 0))
      jumpStream (4 + 1)).countPointsInCurrentSegment ≤ ((5 : Nat) : Int) - 1 ∧
    (mainLoop defaultOptions 5 (LoopState.init (fun _ => "") (fun _ => mkRecord 0 0 0 0 0 0))
      jumpStream 5).countPointsInCurrentSegment = specActiveCount defaultOptions 5 jumpStream 5 :=
  ⟨by decide,
    (counter_within_bounds_and_matches_spec defaultOptions 5 (fun _ => "")
      (fun _ => mkRecord 0 0 0 0 0 0) jumpStream 4 (by decide)).2.2.1.2,
    (counter_within_bounds_and_matches_spec defaultOptions 5 (fun _ => "")
      (fun _ => mkRecord 0 0 0 0 0 0) jumpStream 5 (by decide)).2.2.2.2⟩

/-- C20: for `n >= 1`, iteration `i` emits a segment if and only if (1) `n` frames were read
and frames `i + 1 - n .. i` are all voiced, (2) no iteration `i + 1 - n .. i - 1` emitted a
segment, and (3) the evaluator accepts frames `i + 1 - n .. i` taken in stream order. -/
theorem emits_iff_greedy_window (options : Options) (n : Nat) (b : Nat → String)
    (f : Nat → FeatureVector) (stream : Nat → Frame) (i : Nat) (hn : 1 ≤ n) :
    emitsAt options n (LoopState.init b f) stream i ↔
      (n ≤ i + 1 ∧ ∀ j, i + 1 ≤ j + n → j ≤ i → isVoiced (stream j).fv = true) ∧
      (∀ j, i + 1 ≤ j + n → j < i → ¬ emitsAt options n (LoopState.init b f) stream j) ∧
      isSegmentSuitableForExtract options (fun t => (stream (i + 1 - n + t)).fv) n = true := by
  rw [emitsAt_iff_acceptsAt options n b f stream hn i]
  constructor
  · intro hacc
    obtain ⟨hw, hno⟩ := (evaluatesAt_iff options n b f stream hn i).mp hacc.1
    refine ⟨hw, ?_, ?_⟩
    · intro j h1 h2 hem
      exact hno j h1 h2 ((emitsAt_iff_acceptsAt options n b f stream hn j).mp hem)
    · rw [← verdictAt_eq_window options n b f stream hn i hw.1]
      exact hacc.2
  · rintro ⟨hw, hno, hver⟩
    refine ⟨(evaluatesAt_iff options n b f stream hn i).mpr ⟨hw, ?_⟩, ?_⟩
    · intro j h1 h2 hacc
      exact hno j h1 h2 ((emitsAt_iff_acceptsAt options n b f stream hn j).mpr hacc)
    · show verdictAt options n (LoopState.init b f) stream i = true
      rw [verdictAt_eq_window options n b f stream hn i hw.1]
      exact hver

/-- Scenario A: with five frames per segment the steady stream emits at iteration 4: five
frames were read and are voiced, no earlier iteration emitted, and the evaluator accepts frames
0 to 4. -/
theorem emits_iff_greedy_window_witness :
    1 ≤ 5 ∧
    emitsAt defaultOptions 5 (LoopState.init (fun _ => "") (fun _ => mkRecord 0 0 0 0 0 0))
      steadyStream 4 := by
  refine ⟨by decide, (emits_iff_greedy_window defaultOptions 5 (fun _ => "")
    (fun _ => mkRecord 0 0 0 0 0 0) steadyStream 4 (by decide)).mpr ⟨⟨by decide, ?_⟩, ?_, ?_⟩⟩
  · intro j _ _
    simp [isVoiced, steadyStream, mkRecord, MINIMUM_INTENSITY]
  · intro j _ hj hem
    have := ((emits_iff_greedy_window defaultOptions 5 (fun _ => "")
      (fun _ => mkRecord 0 0 0 0 0 0) steadyStream j (by decide)).mp hem).1.1
    omega
  · simp [isSegmentSuitableForExtract, scanBuffer, scanPoint, Extremes.init, steadyStream,
      mkRecord, calculatePercentDifference, defaultOptions, THRESHOLD_PITCH, THRESHOLD_F1,
      THRESHOLD_F2]

/-! ## The row parser: auxiliary facts -/

theorem isFieldText_undefined : IsFieldText FIELD_UNDEFINED := by
  intro c hc
  simp only [FIELD_UNDEFINED, List.mem_cons, List.mem_singleton, List.not_mem_nil,
    or_false] at hc
  rcases hc with h | h | h | h | h | h | h | h | h | h | h | h | h <;> subst h <;> decide

/-- The copying loop copies a whole field when the field fills the buffer or is followed by
the end of the source, a delimiter or a newline. -/
theorem copyField_field (f : List Char) (hf : IsFieldText f) :
    ∀ (size : Nat) (tail : List Char), f.length ≤ size →
      (f.length = size ∨ EndsField tail) → copyField DELIM size (f ++ tail) = f := by
  induction f with
  | nil =>
    intro size tail _ h
    cases size with
    | zero => rfl
    | succ s =>
      rcases h with h | h | ⟨rest, h | h⟩
      · exact absurd h (by simp)
      · subst h; rfl
      · subst h; simp [copyField]
      · subst h; simp [copyField]
  | cons c cs ih =>
    intro size tail hle h
    cases size with
    | zero => simp at hle
    | succ s =>
      have hc := hf c (List.mem_cons_self c cs)
      have hcs : IsFieldText cs := fun d hd => hf d (List.mem_cons_of_mem c hd)
      have hrec := ih hcs s tail (by simpa using hle) (by
        rcases h with h | h
        · left; simpa using h
        · right; exact h)
      show (if c = DELIM ∨ c = '\n' then [] else c :: copyField DELIM s (cs ++ tail)) = c :: cs
      rw [if_neg (by simp [hc.1, hc.2]), hrec]

/-- The string that `getField` leaves for a field text: cut to 15 characters, and `0` for the
undefined marker. -/
theorem getField_then_delim (f rest : List Char) (hf : IsFieldText f) (hlen : f.length ≤ 16) :
    getField (MAX_FIELD + 1) (f ++ DELIM :: rest) DELIM =
      some (if f.take 15 = FIELD_UNDEFINED then ['0'] else f.take 15, rest) := by
  have hcopy := copyField_field f hf 16 (DELIM :: rest) hlen (Or.inr (Or.inr ⟨rest, Or.inl rfl⟩))
  have hne : f ++ DELIM :: rest ≠ [] := by simp
  simp only [getField, MAX_FIELD, hne, if_false, hcopy, List.drop_left]
  simp

theorem getField_undefined (tail : List Char) (ht : EndsField tail) :
    ∃ rest, getField (MAX_FIELD + 1) (FIELD_UNDEFINED ++ tail) DELIM = some (['0'], rest) := by
  have hcopy := copyField_field FIELD_UNDEFINED isFieldText_undefined 16 tail (by decide)
    (Or.inr ht)
  have hne : FIELD_UNDEFINED ++ tail ≠ [] := by simp [FIELD_UNDEFINED]
  have htake : List.take (16 - 1) FIELD_UNDEFINED = FIELD_UNDEFINED := by decide
  have hlen : FIELD_UNDEFINED.length = 13 := by decide
  have hdrop : List.drop 13 (FIELD_UNDEFINED ++ tail) = tail := by
    rw [← hlen]
    exact List.drop_left _ _
  simp only [getField, MAX_FIELD, hne, if_false, hcopy, htake, if_true, hlen, hdrop]
  rcases ht with h | ⟨rest, h | h⟩
  · subst h
    exact ⟨[], rfl⟩
  · subst h
    exact ⟨rest, by simp⟩
  · subst h
    exact ⟨'\n' :: rest, by simp [DELIM]⟩

theorem parseF3_keeps (atoi : List Char → Int) (fv : FeatureVector) (pcLine : List Char) :
    (parseF3 atoi fv pcLine).2.Time = fv.Time ∧
    (parseF3 atoi fv pcLine).2.Intensity = fv.Intensity ∧
    (parseF3 atoi fv pcLine).2.Pitch = fv.Pitch ∧
    (parseF3 atoi fv pcLine).2.F1 = fv.F1 ∧
    (parseF3 atoi fv pcLine).2.F2 = fv.F2 := by
  unfold parseF3
  cases getField (MAX_FIELD + 1) pcLine DELIM with
  | none => exact ⟨rfl, rfl, rfl, rfl, rfl⟩
  | some r => exact ⟨rfl, rfl, rfl, rfl, rfl⟩

theorem parseF2_keeps (atoi : List Char → Int) (fv : FeatureVector) (pcLine : List Char) :
    (parseF2 atoi fv pcLine).2.Time = fv.Time ∧
    (parseF2 atoi fv pcLine).2.Intensity = fv.Intensity ∧
    (parseF2 atoi fv pcLine).2.Pitch = fv.Pitch ∧
    (parseF2 atoi fv pcLine).2.F1 = fv.F1 := by
  unfold parseF2
  cases getField (MAX_FIELD + 1) pcLine DELIM with
  | none => exact ⟨rfl, rfl, rfl, rfl⟩
  | some r =>
    obtain ⟨h1, h2, h3, h4, -⟩ := parseF3_keeps atoi { fv with F2 := atoi r.1 } r.2
    exact ⟨h1, h2, h3, h4⟩

theorem parseF1_keeps (atoi : List Char → Int) (fv : FeatureVector) (pcLine : List Char) :
    (parseF1 atoi fv pcLine).2.Time = fv.Time ∧
    (parseF1 atoi fv pcLine).2.Intensity = fv.Intensity ∧
    (parseF1 atoi fv pcLine).2.Pitch = fv.Pitch := by
  unfold parseF1
  cases getField (MAX_FIELD + 1) pcLine DELIM with
  | none => exact ⟨rfl, rfl, rfl⟩
  | some r =>
    obtain ⟨h1, h2, h3, -⟩ := parseF2_keeps atoi { fv with F1 := atoi r.1 } r.2
    exact ⟨h1, h2, h3⟩

theorem parsePitch_keeps (atoi : List Char → Int) (fv : FeatureVector) (pcLine : List Char) :
    (parsePitch atoi fv pcLine).2.Time = fv.Time ∧
    (parsePitch atoi fv pcLine).2.Intensity = fv.Intensity := by
  unfold parsePitch
  cases getField (MAX_FIELD + 1) pcLine DELIM with
  | none => exact ⟨rfl, rfl⟩
  | some r =>
    obtain ⟨h1, h2, -⟩ := parseF1_keeps atoi { fv with Pitch := atoi r.1 } r.2
    exact ⟨h1, h2⟩

theorem parseIntensity_keeps (atoi : List Char → Int) (fv : FeatureVector)
    (pcLine : List Char) : (parseIntensity atoi fv pcLine).2.Time = fv.Time := by
  unfold parseIntensity
  cases getField (MAX_FIELD + 1) pcLine DELIM with
  | none => rfl
  | some r => exact (parsePitch_keeps atoi { fv with Intensity := atoi r.1 } r.2).1

/-- A field text of 17 or more characters makes `getField` return `false`. -/
theorem getField_too_wide (f tail : List Char) (hf : IsFieldText f) (hlen : 17 ≤ f.length) :
    getField (MAX_FIELD + 1) (f ++ tail) DELIM = none := by
  have hsplit : f ++ tail = f.take 16 ++ (f.drop 16 ++ tail) := by
    rw [← List.append_assoc, List.take_append_drop]
  have htl : (f.take 16).length = 16 := by
    rw [List.length_take]
    omega
  have hcopy := copyField_field (f.take 16)
    (fun c hc => hf c (List.mem_of_mem_take hc)) 16 (f.drop 16 ++ tail) (by omega)
    (Or.inl htl)
  obtain ⟨c, rest, hd⟩ : ∃ c rest, f.drop 16 = c :: rest := by
    cases h : f.drop 16 with
    | nil =>
      have := congrArg List.length h
      rw [List.length_drop] at this
      simp at this
      omega
    | cons c rest => exact ⟨c, rest, rfl⟩
  have hc : c ≠ DELIM :=
    (hf c (List.mem_of_mem_drop (by rw [hd]; exact List.mem_cons_self c rest))).1
  have hne : f.take 16 ++ (f.drop 16 ++ tail) ≠ [] := by
    rw [hd]
    simp
  have hdrop : List.drop 16 (f.take 16 ++ (f.drop 16 ++ tail)) = c :: (rest ++ tail) := by
    have := List.drop_left (f.take 16) (f.drop 16 ++ tail)
    rw [htl] at this
    rw [this, hd]
    rfl
  rw [hsplit]
  simp only [getField, MAX_FIELD, hne, if_false, hcopy, htl, hdrop, hc, if_true]

theorem fieldsThenDelim_cons_append (f : List Char) (fs : List (List Char)) (t : List Char) :
    fieldsThenDelim (f :: fs) ++ t = f ++ DELIM :: (fieldsThenDelim fs ++ t) := by
  simp [fieldsThenDelim]

theorem getField_field (f rest : List Char) (hf : IsFieldText f ∧ f.length ≤ 16) :
    getField (MAX_FIELD + 1) (f ++ DELIM :: rest) DELIM = some (fieldString f, rest) := by
  rw [getField_then_delim f rest hf.1 hf.2]
  rfl

theorem truncToInt_atof_zero (atof : List Char → ℚ) (h : atof ['0'] = 0) :
    truncToInt (1000 * atof ['0']) = 0 := by
  rw [h]
  simp [truncToInt]

theorem fieldsThenDelim_nil_append (t : List Char) : fieldsThenDelim [] ++ t = t := rfl

theorem parseLine_field (atof : List Char → ℚ) (atoi : List Char → Int) (fv : FeatureVector)
    (f rest : List Char) (hf : IsFieldText f ∧ f.length ≤ 16) :
    parseLine atof atoi fv (f ++ DELIM :: rest) =
      parseIntensity atoi { fv with Time := truncToInt (1000 * atof (fieldString f)) } rest := by
  simp only [parseLine, getField_field f rest hf]

theorem parseIntensity_field (atoi : List Char → Int) (fv : FeatureVector)
    (f rest : List Char) (hf : IsFieldText f ∧ f.length ≤ 16) :
    parseIntensity atoi fv (f ++ DELIM :: rest) =
      parsePitch atoi { fv with Intensity := atoi (fieldString f) } rest := by
  simp only [parseIntensity, getField_field f rest hf]

theorem parsePitch_field (atoi : List Char → Int) (fv : FeatureVector)
    (f rest : List Char) (hf : IsFieldText f ∧ f.length ≤ 16) :
    parsePitch atoi fv (f ++ DELIM :: rest) =
      parseF1 atoi { fv with Pitch := atoi (fieldString f) } rest := by
  simp only [parsePitch, getField_field f rest hf]

theorem parseF1_field (atoi : List Char → Int) (fv : FeatureVector)
    (f rest : List Char) (hf : IsFieldText f ∧ f.length ≤ 16) :
    parseF1 atoi fv (f ++ DELIM :: rest) =
      parseF2 atoi { fv with F1 := atoi (fieldString f) } rest := by
  simp only [parseF1, getField_field f rest hf]

theorem parseF2_field (atoi : List Char → Int) (fv : FeatureVector)
    (f rest : List Char) (hf : IsFieldText f ∧ f.length ≤ 16) :
    parseF2 atoi fv (f ++ DELIM :: rest) =
      parseF3 atoi { fv with F2 := atoi (fieldString f) } rest := by
  simp only [parseF2, getField_field f rest hf]

theorem parseLine_undefined (atof : List Char → ℚ) (atoi : List Char → Int)
    (fv : FeatureVector) (tail : List Char) (ht : EndsField tail) (h : atof ['0'] = 0) :
    (parseLine atof atoi fv (FIELD_UNDEFINED ++ tail)).2.Time = 0 := by
  obtain ⟨rest, hU⟩ := getField_undefined tail ht
  simp only [parseLine, hU]
  rw [parseIntensity_keeps]
  exact truncToInt_atof_zero atof h

theorem parseIntensity_undefined (atoi : List Char → Int) (fv : FeatureVector)
    (tail : List Char) (ht : EndsField tail) (h : atoi ['0'] = 0) :
    (parseIntensity atoi fv (FIELD_UNDEFINED ++ tail)).2.Intensity = 0 := by
  obtain ⟨rest, hU⟩ := getField_undefined tail ht
  simp only [parseIntensity, hU]
  rw [(parsePitch_keeps _ _ _).2]
  exact h

theorem parsePitch_undefined (atoi : List Char → Int) (fv : FeatureVector)
    (tail : List Char) (ht : EndsField tail) (h : atoi ['0'] = 0) :
    (parsePitch atoi fv (FIELD_UNDEFINED ++ tail)).2.Pitch = 0 := by
  obtain ⟨rest, hU⟩ := getField_undefined tail ht
  simp only [parsePitch, hU]
  rw [(parseF1_keeps _ _ _).2.2]
  exact h

theorem parseF1_undefined (atoi : List Char → Int) (fv : FeatureVector)
    (tail : List Char) (ht : EndsField tail) (h : atoi ['0'] = 0) :
    (parseF1 atoi fv (FIELD_UNDEFINED ++ tail)).2.F1 = 0 := by
  obtain ⟨rest, hU⟩ := getField_undefined tail ht
  simp only [parseF1, hU]
  rw [(parseF2_keeps _ _ _).2.2.2]
  exact h

theorem parseF2_undefined (atoi : List Char → Int) (fv : FeatureVector)
    (tail : List Char) (ht : EndsField tail) (h : atoi ['0'] = 0) :
    (parseF2 atoi fv (FIELD_UNDEFINED ++ tail)).2.F2 = 0 := by
  obtain ⟨rest, hU⟩ := getField_undefined tail ht
  simp only [parseF2, hU]
  rw [(parseF3_keeps _ _ _).2.2.2.2]
  exact h

theorem parseF3_undefined (atoi : List Char → Int) (fv : FeatureVector)
    (tail : List Char) (ht : EndsField tail) (h : atoi ['0'] = 0) :
    (parseF3 atoi fv (FIELD_UNDEFINED ++ tail)).2.F3 = 0 := by
  obtain ⟨rest, hU⟩ := getField_undefined tail ht
  simp only [parseF3, hU]
  exact h

/-! ## Further claims: the row parser -/

/-- C14 (the code at the failing input): the row `0.02,60` ended by a newline has two fields,
yet `parseLine` returns true: after the second field the pointer rests on the newline, which
is not NUL, so each later call of `getField` succeeds with an empty field. -/
theorem parseLine_accepts_short_row (atof : List Char → ℚ) (atoi : List Char → Int)
    (fv : FeatureVector) :
    parseLine atof atoi fv shortRow =
      (true, { fv with
        Time := truncToInt (1000 * atof "0.02".toList)
        Intensity := atoi "60".toList
        Pitch := atoi [], F1 := atoi [], F2 := atoi [], F3 := atoi [] }) := by
  rfl

/-- C15 (the code at the failing input): the first field of the row has 16 characters, more
than `MAX_FIELD`, yet `parseLine` returns true, and the text handed to `atof` is the field cut
to its first 15 characters. -/
theorem parseLine_cuts_sixteen_character_field (atof : List Char → ℚ)
    (atoi : List Char → Int) (fv : FeatureVector) :
    "0.04000000000001".toList.length = 16 ∧
    parseLine atof atoi fv sixteenRow =
      (true, { fv with
        Time := truncToInt (1000 * atof "0.0400000000000".toList)
        Intensity := atoi "60".toList
        Pitch := atoi "120".toList
        F1 := atoi "500".toList
        F2 := atoi "1500".toList
        F3 := atoi "2500".toList }) :=
  ⟨rfl, rfl⟩

/-- C16 (as stated) fails: the row has six fields and its second field is the undefined marker,
but its first field has 17 characters, so `parseLine` returns false at the first field and the
intensity of the record keeps its old value 60. -/
theorem undefined_field_behind_wide_field_not_read :
    "0.020000000000001".toList.length = 17 ∧
    (parseLine decimalAtof decimalAtoi (mkRecord 0 60 0 0 0 0) seventeenRow).1 = false ∧
    recordField 1 (parseLine decimalAtof decimalAtoi (mkRecord 0 60 0 0 0 0) seventeenRow).2
      = 60 :=
  ⟨rfl, rfl, rfl⟩

/-- C16 (amended): if field `k` of a row, `k` in 1..6, is exactly the undefined marker (it is
followed by the end of the row, a delimiter or a newline) and each of the `k - 1` fields before
it has at most 16 characters, then the call of `getField` for it succeeds with the text `0`
and, the library conversions giving 0 on that text, the corresponding field of the record is 0
when `parseLine` returns.  This covers every such row with six or more fields. -/
theorem undefined_field_read_as_zero (atof : List Char → ℚ) (atoi : List Char → Int)
    (fv : FeatureVector) (before : List (List Char)) (tail : List Char)
    (hatof : atof ['0'] = 0) (hatoi : atoi ['0'] = 0) (hk : before.length < 6)
    (hbefore : ∀ f, f ∈ before → IsFieldText f ∧ f.length ≤ 16) (htail : EndsField tail) :
    (∃ rest, getField (MAX_FIELD + 1) (FIELD_UNDEFINED ++ tail) DELIM = some (['0'], rest)) ∧
    recordField before.length
      (parseLine atof atoi fv (fieldsThenDelim before ++ (FIELD_UNDEFINED ++ tail))).2 = 0 := by
  refine ⟨getField_undefined tail htail, ?_⟩
  rcases before with _ | ⟨a, _ | ⟨b, _ | ⟨c, _ | ⟨d, _ | ⟨e, _ | ⟨g, r⟩⟩⟩⟩⟩⟩
  · rw [fieldsThenDelim_nil_append]
    exact parseLine_undefined atof atoi fv tail htail hatof
  · have ha := hbefore a (by simp)
    rw [fieldsThenDelim_cons_append, fieldsThenDelim_nil_append, parseLine_field _ _ _ _ _ ha]
    exact parseIntensity_undefined atoi _ tail htail hatoi
  · have ha := hbefore a (by simp)
    have hb := hbefore b (by simp)
    rw [fieldsThenDelim_cons_append, fieldsThenDelim_cons_append, fieldsThenDelim_nil_append,
      parseLine_field _ _ _ _ _ ha, parseIntensity_field _ _ _ _ hb]
    exact parsePitch_undefined atoi _ tail htail hatoi
  · have ha := hbefore a (by simp)
    have hb := hbefore b (by simp)
    have hc := hbefore c (by simp)
    rw [fieldsThenDelim_cons_append, fieldsThenDelim_cons_append, fieldsThenDelim_cons_append,
      fieldsThenDelim_nil_append, parseLine_field _ _ _ _ _ ha, parseIntensity_field _ _ _ _ hb,
      parsePitch_field _ _ _ _ hc]
    exact parseF1_undefined atoi _ tail htail hatoi
  · have ha := hbefore a (by simp)
    have hb := hbefore b (by simp)
    have hc := hbefore c (by simp)
    have hd := hbefore d (by simp)
    rw [fieldsThenDelim_cons_append, fieldsThenDelim_cons_append, fieldsThenDelim_cons_append,
      fieldsThenDelim_cons_append, fieldsThenDelim_nil_append, parseLine_field _ _ _ _ _ ha,
      parseIntensity_field _ _ _ _ hb, parsePitch_field _ _ _ _ hc, parseF1_field _ _ _ _ hd]
    exact parseF2_undefined atoi _ tail htail hatoi
  · have ha := hbefore a (by simp)
    have hb := hbefore b (by simp)
    have hc := hbefore c (by simp)
    have hd := hbefore d (by simp)
    have he := hbefore e (by simp)
    rw [fieldsThenDelim_cons_append, fieldsThenDelim_cons_append, fieldsThenDelim_cons_append,
      fieldsThenDelim_cons_append, fieldsThenDelim_cons_append, fieldsThenDelim_nil_append,
      parseLine_field _ _ _ _ _ ha, parseIntensity_field _ _ _ _ hb,
      parsePitch_field _ _ _ _ hc, parseF1_field _ _ _ _ hd, parseF2_field _ _ _ _ he]
    exact parseF3_undefined atoi _ tail htail hatoi
  · simp at hk
    omega

/-- The row `0.02,--undefined--,120,500,1500,2500`: the intensity of the record is 0 after
`parseLine`, whatever it was before. -/
theorem undefined_field_read_as_zero_witness :
    decimalAtof ['0'] = 0 ∧ decimalAtoi ['0'] = 0 ∧
    recordField 1 (parseLine decimalAtof decimalAtoi (mkRecord 0 60 0 0 0 0) undefinedRow).2
      = 0 := by
  have hatof : decimalAtof ['0'] = 0 := by simp [decimalAtof, digitsValue]
  have hatoi : decimalAtoi ['0'] = 0 := by decide
  have hf : ∀ f, f ∈ ["0.02".toList] → IsFieldText f ∧ f.length ≤ 16 := by
    intro f hf
    rw [List.mem_singleton] at hf
    subst hf
    exact ⟨by unfold IsFieldText; decide, by decide⟩
  exact ⟨hatof, hatoi,
    (undefined_field_read_as_zero decimalAtof decimalAtoi (mkRecord 0 60 0 0 0 0)
      ["0.02".toList] ",120,500,1500,2500\n".toList hatof hatoi (by decide) hf
      (Or.inr ⟨"120,500,1500,2500\n".toList, Or.inl rfl⟩)).2⟩

/-! ## Further claims: the counter and the voiced run -/

theorem isVoicedRecord_of_isVoiced (fv : FeatureVector) (h : isVoiced fv = true) :
    IsVoicedRecord fv := by
  refine ⟨h, ?_⟩
  unfold isVoiced MINIMUM_INTENSITY at h
  by_cases h1 : fv.Intensity < 55
  · simp [h1] at h
  · by_cases h2 : fv.Pitch = 0
    · simp [h1, h2] at h
    · by_cases h3 : fv.F3 = 0
      · simp [h1, h2, h3] at h
      · exact ⟨by omega, h2, h3⟩

/-- The run length is at least `m` exactly when the last `m` frames exist and are voiced. -/
theorem le_voicedRunLength_iff (stream : Nat → Frame) (k : Nat) :
    ∀ m, m ≤ voicedRunLength stream k ↔
      m ≤ k ∧ ∀ j, j < k → k ≤ j + m → isVoiced (stream j).fv = true := by
  induction k with
  | zero =>
    intro m
    simp only [voicedRunLength]
    exact ⟨fun h => ⟨h, fun j hj => absurd hj (Nat.not_lt_zero j)⟩, fun h => h.1⟩
  | succ k ih =>
    intro m
    simp only [voicedRunLength]
    by_cases hv : isVoiced (stream k).fv = true
    · rw [if_pos hv]
      constructor
      · intro h
        by_cases hm : m = 0
        · subst hm
          exact ⟨Nat.zero_le _, fun j hj hle => by omega⟩
        · obtain ⟨h1, h2⟩ := (ih (m - 1)).mp (by omega)
          refine ⟨by omega, fun j hj hle => ?_⟩
          rcases Nat.lt_succ_iff_lt_or_eq.mp hj with hlt | heq
          · exact h2 j hlt (by omega)
          · rw [heq]; exact hv
      · rintro ⟨h1, h2⟩
        by_cases hm : m = 0
        · omega
        · have := (ih (m - 1)).mpr ⟨by omega, fun j hj hle =>
            h2 j (Nat.lt_succ_of_lt hj) (by omega)⟩
          omega
    · rw [if_neg hv]
      constructor
      · intro h
        have hm : m = 0 := by omega
        subst hm
        exact ⟨Nat.zero_le _, fun j hj hle => by omega⟩
      · rintro ⟨h1, h2⟩
        by_contra hm
        exact hv (h2 k (Nat.lt_succ_self k) (by omega))

/-- C21: for `n >= 1`, after every number of iterations the counter is at most the length of
the run of consecutive voiced frames that ends with the last frame read; consequently, whenever
the evaluator is called, every record of the ring handed to it is voiced (intensity at least
55, pitch and F3 not 0), these records being frames `i + 1 - n .. i`; and every emitted segment
is the segment of a window `line + 1 - n .. line` whose frames are all voiced. -/
theorem counter_at_most_voiced_run (options : Options) (n : Nat) (b : Nat → String)
    (f : Nat → FeatureVector) (stream : Nat → Frame) (hn : 1 ≤ n) :
    (∀ k, (mainLoop options n (LoopState.init b f) stream k).countPointsInCurrentSegment ≤
      (voicedRunLength stream k : Int)) ∧
    (∀ i, evaluatesAt options n (LoopState.init b f) stream i →
      (∀ p, p < n →
        IsVoicedRecord ((stateAtCheck options n (LoopState.init b f) stream i).features p)) ∧
      (∀ j, i + 1 ≤ j + n → j ≤ i → IsVoicedRecord (stream j).fv)) ∧
    (∀ k seg, seg ∈ (mainLoop options n (LoopState.init b f) stream k).extracted →
      n ≤ seg.line + 1 ∧ seg = expectedSegment options n stream seg.line ∧
      ∀ j, seg.line + 1 ≤ j + n → j ≤ seg.line → IsVoicedRecord (stream j).fv) := by
  refine ⟨?_, ?_, ?_⟩
  · intro k
    have inv := loopInv_mainLoop options n stream hn b f k
    have h0 := inv.count_nonneg
    have hle := inv.count_le
    have hrun := (le_voicedRunLength_iff stream k
      (mainLoop options n (LoopState.init b f) stream k).countPointsInCurrentSegment.toNat).mpr
      ⟨by omega, fun j hj hjk => inv.voiced j hj (by omega)⟩
    omega
  · intro i hev
    have inv := loopInv_mainLoop options n stream hn b f i
    have c := checkInv_ingest options n stream i _ inv
    have hfull : (ingest n i (mainLoop options n (LoopState.init b f) stream i)
        (stream i)).countPointsInCurrentSegment = n := hev
    have hk : n ≤ i + 1 := by
      have := c.count_le
      omega
    have hwin : ∀ j, i + 1 ≤ j + n → j ≤ i → IsVoicedRecord (stream j).fv := fun j h1 h2 =>
      isVoicedRecord_of_isVoiced _ (c.voiced j (by omega) (by rw [hfull]; omega))
    refine ⟨?_, hwin⟩
    intro p hp
    obtain ⟨t, ht, e⟩ := slot_of_window n (i + 1 - n) p hp
    have hslot := c.ring_fv (i + 1 - n + t) (by omega) (by omega)
    rw [e] at hslot
    unfold stateAtCheck
    rw [hslot]
    exact hwin _ (by omega) (by omega)
  · intro k seg hseg
    have inv := loopInv_mainLoop options n stream hn b f k
    obtain ⟨hwf, hk⟩ := inv.seg_wf seg hseg
    obtain ⟨-, -, hv⟩ := inv.eval_wf _ (inv.seg_eval seg hseg)
    exact ⟨hk, hwf, fun j h1 h2 => isVoicedRecord_of_isVoiced _ (hv j h1 h2)⟩

/-- Scenario B: after the five frames, of which frame 3 is unvoiced, the voiced run has length
1 and the counter is at most that. -/
theorem counter_at_most_voiced_run_witness :
    1 ≤ 5 ∧ voicedRunLength gapStream 5 = 1 ∧
    (mainLoop defaultOptions 5 (LoopState.init (fun _ => "") (fun _ => mkRecord 0 0 0 0 0 0))
      gapStream 5).countPointsInCurrentSegment ≤ (voicedRunLength gapStream 5 : Int) :=
  ⟨by decide, by simp [voicedRunLength, gapStream, mkRecord, isVoiced, MINIMUM_INTENSITY],
    (counter_at_most_voiced_run defaultOptions 5 (fun _ => "") (fun _ => mkRecord 0 0 0 0 0 0)
      gapStream (by decide)).1 5⟩

end PitchVowelSegmenter
